import Mathlib

set_option autoImplicit false
set_option maxHeartbeats 1000000

/-! Verification development for the hpat hiframes type-specialization pass
    (hiframes_typed.py), the pandas-series type mapping (pd_series_ext.py)
    and the string columnar buffer (str_arr_ext.py). Python float cells are
    modelled as `Option ℚ`, with `none` standing for the NaN sentinel: the
    reduction loops of the source only accumulate values that pass the
    `not np.isnan(val)` test, so the accumulator always holds an exact
    rational and `Option` captures exactly where NaN can appear. -/

/-- A cell of a float column; `none` models the NaN sentinel. -/
abbrev FloatV := Option ℚ

/-- Embedding of `np.isnan` on a float cell. -/
def isnan : FloatV → Bool
  | none => true
  | some _ => false

/-- Float addition with NaN propagation. -/
def fadd : FloatV → FloatV → FloatV
  | some a, some b => some (a + b)
  | _, _ => none

/-- Float subtraction with NaN propagation. -/
def fsub : FloatV → FloatV → FloatV
  | some a, some b => some (a - b)
  | _, _ => none

/-- Float multiplication with NaN propagation. -/
def fmul : FloatV → FloatV → FloatV
  | some a, some b => some (a * b)
  | _, _ => none

/-- The non-NaN values of a column, in order. -/
def nonNan (A : List FloatV) : List ℚ := A.filterMap id

@[simp] theorem nonNan_nil : nonNan [] = [] := rfl

@[simp] theorem nonNan_cons_none (A : List FloatV) : nonNan (none :: A) = nonNan A := rfl

@[simp] theorem nonNan_cons_some (q : ℚ) (A : List FloatV) :
    nonNan (some q :: A) = q :: nonNan A := rfl

@[simp] theorem isnan_none : isnan none = true := rfl

@[simp] theorem isnan_some (q : ℚ) : isnan (some q) = false := rfl

/-- Body of the count loop of `_column_count_impl` (hiframes_typed.py):
    `if not np.isnan(val): count += 1`. -/
def count_loop_body (count : Nat) (val : FloatV) : Nat :=
  if ¬ isnan val then count + 1 else count

/-- Embedding of `_column_count_impl` (hiframes_typed.py). -/
def column_count_impl (A : List FloatV) : Nat :=
  A.foldl count_loop_body 0

/-- Body of the accumulation loop shared by `_column_sum_impl`,
    `_column_mean_impl` and the first pass of `_column_var_impl`
    (hiframes_typed.py): `if not np.isnan(val): s += val; count += 1`.
    Since a value passing the test is a genuine rational, the accumulator is
    kept as an exact `ℚ × Nat` pair. -/
def sum_count_loop_body (sc : ℚ × Nat) (val : FloatV) : ℚ × Nat :=
  match val with
  | none => sc
  | some q => (sc.1 + q, sc.2 + 1)

@[simp] theorem sum_count_loop_body_none (sc : ℚ × Nat) :
    sum_count_loop_body sc none = sc := rfl

@[simp] theorem sum_count_loop_body_some (sc : ℚ × Nat) (q : ℚ) :
    sum_count_loop_body sc (some q) = (sc.1 + q, sc.2 + 1) := rfl

/-- Embedding of `_sum_handle_nan` (hiframes_typed.py): if the count is
    zero the running sum is replaced by NaN. -/
def sum_handle_nan (s : ℚ) (count : Nat) : FloatV :=
  if count = 0 then none else some s

/-- Embedding of `_column_sum_impl` (hiframes_typed.py). -/
def column_sum_impl (A : List FloatV) : FloatV :=
  let p := A.foldl sum_count_loop_body ((0 : ℚ), (0 : Nat))
  sum_handle_nan p.1 p.2

/-- Embedding of `_mean_handle_nan` (hiframes_typed.py): divide by the
    count when it is nonzero, else NaN. -/
def mean_handle_nan (s : ℚ) (count : Nat) : FloatV :=
  if count = 0 then none else some (s / count)

/-- Embedding of `_column_mean_impl` (hiframes_typed.py). -/
def column_mean_impl (A : List FloatV) : FloatV :=
  let p := A.foldl sum_count_loop_body ((0 : ℚ), (0 : Nat))
  mean_handle_nan p.1 p.2

/-- Embedding of `_var_handle_nan` (hiframes_typed.py): NaN when
    `count <= 1`, else `s / (count - 1)` (where `s` may itself be NaN). -/
def var_handle_nan (s : FloatV) (count : Nat) : FloatV :=
  if count ≤ 1 then none
  else
    match s with
    | none => none
    | some q => some (q / ((count - 1 : Nat) : ℚ))

/-- Body of the second pass of `_column_var_impl` (hiframes_typed.py):
    `if not np.isnan(val): s += (val - m) ** 2; count += 1`, where `m` is
    the float produced by `_mean_handle_nan` and may be NaN, so `s` is a
    NaN-propagating float. -/
def var_sq_loop_body (m : FloatV) (sc : FloatV × Nat) (val : FloatV) : FloatV × Nat :=
  match val with
  | none => sc
  | some v => (fadd sc.1 (fmul (fsub (some v) m) (fsub (some v) m)), sc.2 + 1)

@[simp] theorem var_sq_loop_body_none (m : FloatV) (sc : FloatV × Nat) :
    var_sq_loop_body m sc none = sc := rfl

@[simp] theorem var_sq_loop_body_some (m : FloatV) (sc : FloatV × Nat) (v : ℚ) :
    var_sq_loop_body m sc (some v)
      = (fadd sc.1 (fmul (fsub (some v) m) (fsub (some v) m)), sc.2 + 1) := rfl

/-- Embedding of `_column_var_impl` (hiframes_typed.py): first pass sums the
    non-NaN elements and counts them, the mean is formed by
    `_mean_handle_nan`, the second pass sums `(val - m) ** 2` over the
    non-NaN elements and recounts them, and the result goes through
    `_var_handle_nan`. -/
def column_var_impl (A : List FloatV) : FloatV :=
  let p := A.foldl sum_count_loop_body ((0 : ℚ), (0 : Nat))
  let m : FloatV := mean_handle_nan p.1 p.2
  let q := A.foldl (var_sq_loop_body m) ((some 0 : FloatV), (0 : Nat))
  var_handle_nan q.1 q.2

theorem foldl_count (A : List FloatV) (c : Nat) :
    A.foldl count_loop_body c = c + (nonNan A).length := by
  induction A generalizing c with
  | nil => simp
  | cons a A ih =>
    cases a with
    | none => simpa [count_loop_body] using ih c
    | some q =>
      simp only [List.foldl_cons, count_loop_body, isnan_some, Bool.false_eq_true,
        not_false_eq_true, if_true, if_pos, ih (c + 1), nonNan_cons_some, List.length_cons]
      omega

theorem foldl_sum_count (A : List FloatV) (s : ℚ) (c : Nat) :
    A.foldl sum_count_loop_body (s, c)
      = (s + (nonNan A).sum, c + (nonNan A).length) := by
  induction A generalizing s c with
  | nil => simp
  | cons a A ih =>
    cases a with
    | none => simpa using ih s c
    | some q =>
      simp only [List.foldl_cons, sum_count_loop_body_some, nonNan_cons_some,
        List.sum_cons, List.length_cons]
      rw [ih (s + q) (c + 1), Prod.mk.injEq]
      exact ⟨by ring, by omega⟩

theorem foldl_var_sq (A : List FloatV) (μ : ℚ) (s : ℚ) (c : Nat) :
    A.foldl (var_sq_loop_body (some μ)) (some s, c)
      = (some (s + ((nonNan A).map (fun x => (x - μ) * (x - μ))).sum),
          c + (nonNan A).length) := by
  induction A generalizing s c with
  | nil => simp
  | cons a A ih =>
    cases a with
    | none => simpa using ih s c
    | some v =>
      simp only [List.foldl_cons, var_sq_loop_body_some, fsub, fmul, fadd,
        nonNan_cons_some, List.map_cons, List.sum_cons, List.length_cons]
      rw [ih (s + (v - μ) * (v - μ)) (c + 1), Prod.mk.injEq]
      refine ⟨congrArg some (by ring), by omega⟩

theorem foldl_var_sq_nan (A : List FloatV) (hA : nonNan A = []) (x : FloatV) (c : Nat) :
    A.foldl (var_sq_loop_body none) (x, c) = (x, c) := by
  induction A generalizing x c with
  | nil => simp
  | cons a A ih =>
    cases a with
    | none => simpa using ih (by simpa using hA) x c
    | some v => simp at hA

/-- C1: for the count, sum, and mean reduction templates on a float buffer,
    an element contributes to the aggregate and count exactly when it is not
    NaN; count is the number of non-NaN elements; zero count makes sum and
    mean NaN; otherwise sum is the sum of non-NaN elements and mean is that
    sum divided by the count; for a non-empty buffer with no missing values,
    sum is the total and mean is the total over the length. -/
theorem count_sum_mean_reduction_spec (A : List FloatV) :
    column_count_impl A = (nonNan A).length
    ∧ column_sum_impl A
        = (if (nonNan A).length = 0 then none else some (nonNan A).sum)
    ∧ column_mean_impl A
        = (if (nonNan A).length = 0 then none
           else some ((nonNan A).sum / ((nonNan A).length : ℚ)))
    ∧ (A ≠ [] → (∀ x ∈ A, isnan x = false) →
        column_sum_impl A = some (nonNan A).sum
        ∧ column_mean_impl A = some ((nonNan A).sum / (A.length : ℚ))) := by
  have hlen : ∀ B : List FloatV, (∀ x ∈ B, isnan x = false) →
      (nonNan B).length = B.length := by
    intro B hB
    induction B with
    | nil => simp
    | cons a B ih =>
      cases a with
      | none => exact absurd (hB none (by simp)) (by simp)
      | some q =>
        simp only [nonNan_cons_some, List.length_cons]
        exact congrArg (· + 1) (ih (fun x hx => hB x (by simp [hx])))
  have hsum : column_sum_impl A
      = (if (nonNan A).length = 0 then none else some (nonNan A).sum) := by
    simp only [column_sum_impl, foldl_sum_count A 0 0, sum_handle_nan, Nat.zero_add,
      zero_add]
  have hmean : column_mean_impl A
      = (if (nonNan A).length = 0 then none
         else some ((nonNan A).sum / ((nonNan A).length : ℚ))) := by
    simp only [column_mean_impl, foldl_sum_count A 0 0, mean_handle_nan, Nat.zero_add,
      zero_add]
  refine ⟨?_, hsum, hmean, ?_⟩
  · simpa [column_count_impl] using foldl_count A 0
  · intro hne hnn
    have hL : (nonNan A).length = A.length := hlen A hnn
    have hpos : (nonNan A).length ≠ 0 := by
      rw [hL]
      simpa using hne
    exact ⟨by rw [hsum, if_neg hpos], by rw [hmean, if_neg hpos, hL]⟩

/-- Witness for `count_sum_mean_reduction_spec` at the concrete buffer
    `[1, 2, 3]`. -/
theorem count_sum_mean_reduction_spec_witness :
    column_sum_impl [some 1, some 2, some 3] = some 6
    ∧ column_mean_impl [some 1, some 2, some 3] = some 2 := by
  have h := (count_sum_mean_reduction_spec [some 1, some 2, some 3]).2.2.2
    (by decide) (by decide)
  refine ⟨h.1.trans ?_, h.2.trans ?_⟩
  · norm_num
  · norm_num

/-- The concrete numeric column of the spec scenario:
    `[-1, NaN, 2.5, 3.0, 4.0, 6.0]`. -/
def demo_numeric_column : List FloatV :=
  [some (-1), none, some (5/2), some 3, some 4, some 6]

/-- C2 counterexample: on the scenario column `[-1, NaN, 2.5, 3.0, 4.0, 6.0]`
    the variance template produces exactly 131/20 = 6.55 (the sample
    variance of `[-1, 2.5, 3, 4, 6]`), not approximately 7.325 = 293/40 as
    the claim asserts: the two differ by 31/40 = 0.775. -/
theorem var_scenario_counterexample :
    column_var_impl demo_numeric_column = some (131/20)
    ∧ ((131 : ℚ)/20) ≠ 293/40
    ∧ |(131 : ℚ)/20 - 293/40| = 31/40 := by
  refine ⟨?_, by norm_num, by norm_num⟩
  norm_num [column_var_impl, demo_numeric_column, mean_handle_nan, var_handle_nan,
    sum_count_loop_body, var_sq_loop_body, fadd, fsub, fmul, List.foldl]

/-- C2 (amended): the variance template excludes NaN in both passes, the
    first pass computing the mean of the non-NaN elements, the second the
    sum of their squared deviations from that mean; the result is that sum
    over (count - 1) when count > 1 and NaN otherwise; on the scenario
    column `[-1, NaN, 2.5, 3.0, 4.0, 6.0]` the count is 5, the sum 14.5,
    the mean 2.9, and the variance the sample variance of
    `[-1, 2.5, 3, 4, 6]`, namely 6.55 (not 7.325). -/
theorem var_reduction_spec (A : List FloatV) :
    column_var_impl A
      = (if (nonNan A).length ≤ 1 then none
         else some ((((nonNan A).map (fun x =>
              (x - (nonNan A).sum / ((nonNan A).length : ℚ)) *
              (x - (nonNan A).sum / ((nonNan A).length : ℚ)))).sum)
            / (((nonNan A).length - 1 : Nat) : ℚ)))
    ∧ column_count_impl demo_numeric_column = 5
    ∧ column_sum_impl demo_numeric_column = some (29/2)
    ∧ column_mean_impl demo_numeric_column = some (29/10)
    ∧ column_var_impl demo_numeric_column = some (131/20) := by
  refine ⟨?_, by decide, ?_, ?_, ?_⟩
  · unfold column_var_impl
    rw [foldl_sum_count A 0 0]
    simp only [zero_add, Nat.zero_add]
    by_cases h0 : (nonNan A).length = 0
    · have hnil : nonNan A = [] := List.length_eq_zero.mp h0
      rw [show mean_handle_nan (nonNan A).sum (nonNan A).length = none by
            simp [mean_handle_nan, h0],
          foldl_var_sq_nan A hnil (some 0) 0]
      simp [var_handle_nan, h0]
    · rw [show mean_handle_nan (nonNan A).sum (nonNan A).length
            = some ((nonNan A).sum / ((nonNan A).length : ℚ)) by
            simp [mean_handle_nan, h0],
          foldl_var_sq A ((nonNan A).sum / ((nonNan A).length : ℚ)) 0 0]
      simp only [zero_add, Nat.zero_add, var_handle_nan]
  · norm_num [column_sum_impl, demo_numeric_column, sum_handle_nan,
      sum_count_loop_body, List.foldl]
  · norm_num [column_mean_impl, demo_numeric_column, mean_handle_nan,
      sum_count_loop_body, List.foldl]
  · norm_num [column_var_impl, demo_numeric_column, mean_handle_nan, var_handle_nan,
      sum_count_loop_body, var_sq_loop_body, fadd, fsub, fmul, List.foldl]

/-! String columnar buffer (str_arr_ext.py). The packed representation is
    modelled structurally: an item count, a total character count, an
    offsets buffer and a data buffer, mirroring `StringArrayModel`. The
    external C primitives `allocate_string_array`, `setitem_string_array`
    and `getitem_string_array_std` are not part of the sources, so they are
    modelled from the spec, section 4.3. -/

/-- Packed string columnar buffer: mirrors the `StringArrayModel` fields
    `num_items`, `num_total_chars`, `offsets`, `data` (str_arr_ext.py). -/
structure StringArr where
  num_items : Nat
  num_total_chars : Nat
  offsets : List Nat
  data : List Char
  deriving Repr, DecidableEq

/-- Modelled from the spec: `pre_alloc_string_array` backed by the external
    `allocate_string_array` C function; `preallocate(itemCount, totalChars)`
    produces count+1 offset entries zero-initialized (offsets[0] = 0) and a
    data region of totalChars bytes. -/
def pre_alloc_string_array (n c : Nat) : StringArr :=
  ⟨n, c, List.replicate (n + 1) 0, List.replicate c (Char.ofNat 0)⟩

/-- Offset entry of a buffer at an index (0 when out of range). -/
def getOffset (arr : StringArr) (i : Nat) : Nat := arr.offsets.getD i 0

/-- Overwrite of a data region at a position with the bytes of a string. -/
def writeChars (data : List Char) (pos : Nat) (s : List Char) : List Char :=
  data.take pos ++ s ++ data.drop (pos + s.length)

/-- Modelled from the spec: `setitem_string_array` backed by the external C
    function of the same name; `setItem(buffer, index, text)` writes the
    bytes of `text` at the data region starting at `offsets[index]` and sets
    `offsets[index+1] = offsets[index] + len(text)`. -/
def setitem_string_array (arr : StringArr) (s : String) (ind : Nat) : StringArr :=
  let pos := getOffset arr ind
  { arr with
    data := writeChars arr.data pos s.toList
    offsets := arr.offsets.set (ind + 1) (pos + s.length) }

/-- Modelled from the spec: single-index `getItem` backed by the external
    `getitem_string_array_std` C function: the byte range
    `[offsets[index], offsets[index+1])` of the data region. -/
def getitem_string_array (arr : StringArr) (i : Nat) : String :=
  String.mk ((arr.data.drop (getOffset arr i)).take
    (getOffset arr (i + 1) - getOffset arr i))

/-- All items of a buffer, read back through single-index getitem. -/
def itemsOf (arr : StringArr) : List String :=
  (List.range arr.num_items).map (getitem_string_array arr)

/-- Total character count of a list of strings. -/
def totalChars (ts : List String) : Nat := (ts.map String.length).sum

/-- The in-order write loop shared by the construction paths of
    str_arr_ext.py: write each string at consecutive indices starting at
    `ind` with `setitem_string_array`. -/
def fill_strings (arr : StringArr) (ts : List String) (ind : Nat) : StringArr :=
  match ts with
  | [] => arr
  | s :: rest => fill_strings (setitem_string_array arr s ind) rest (ind + 1)

/-- Embedding of `str_list_impl` (str_arr_ext.py): size a fresh buffer over
    the list, preallocate, and write each string in increasing index
    order. -/
def str_list_to_array (ss : List String) : StringArr :=
  fill_strings (pre_alloc_string_array ss.length (totalChars ss)) ss 0

/-- Embedding of `str_arr_bool_impl` (str_arr_ext.py,
    `lower_string_arr_getitem_bool`): raise when the mask length differs
    from the item count (`len(str_arr)` reads `num_items` through the
    `size` attribute); otherwise one linear pass computes the selected item
    and character counts, a fresh buffer of that size is preallocated, and
    a second linear pass copies each selected item in order. -/
def str_arr_getitem_bool (str_arr : StringArr) (bool_arr : List Bool) :
    Except String StringArr :=
  let n := str_arr.num_items
  if n ≠ bool_arr.length then
    Except.error "boolean index did not match indexed array along dimension 0"
  else
    let nc := (List.range n).foldl
      (fun nc i =>
        if bool_arr.getD i false then
          (nc.1 + 1, nc.2 + (getitem_string_array str_arr i).length)
        else nc)
      (0, 0)
    let out_arr := pre_alloc_string_array nc.1 nc.2
    let res := (List.range n).foldl
      (fun os i =>
        if bool_arr.getD i false then
          (setitem_string_array os.1 (getitem_string_array str_arr i) os.2, os.2 + 1)
        else os)
      (out_arr, 0)
    Except.ok res.1

/-- The items of a buffer at true positions of a mask, in original order
    (specification-side description of the masked filter). -/
def selectedItems : List String → List Bool → List String
  | s :: ss, b :: bs => if b then s :: selectedItems ss bs else selectedItems ss bs
  | _, _ => []

/-- Number of true entries of a mask. -/
def countTrue (mask : List Bool) : Nat := (mask.filter (fun b => b)).length

/-- Offsets buffer of a fully packed sequence of strings starting at a
    base offset. -/
def offsetsFrom (base : Nat) : List String → List Nat
  | [] => [base]
  | s :: rest => base :: offsetsFrom (base + s.length) rest

/-- Data buffer of a fully packed sequence of strings. -/
def charsOf (ts : List String) : List Char := (ts.map String.toList).flatten

/-- Fully packed buffer of a sequence of strings. -/
def packed (ts : List String) : StringArr :=
  ⟨ts.length, totalChars ts, offsetsFrom 0 ts, charsOf ts⟩

example :
    str_list_to_array ["ab", "c"]
      = ⟨2, 3, [0, 2, 3], ['a', 'b', 'c']⟩ := by decide

example : packed ["ab", "c"] = ⟨2, 3, [0, 2, 3], ['a', 'b', 'c']⟩ := by decide

example : itemsOf (packed ["ab", "c"]) = ["ab", "c"] := by decide

example :
    (str_arr_getitem_bool
        (str_list_to_array ["bc", "a", "a", "a", "bc", "bc", "bc", "a"])
        [true, false, true, false, true, false, false, true]).map itemsOf
      = Except.ok ["bc", "a", "bc", "a"] := rfl

@[simp] theorem totalChars_nil : totalChars [] = 0 := rfl

@[simp] theorem totalChars_cons (s : String) (ts : List String) :
    totalChars (s :: ts) = s.length + totalChars ts := by
  simp [totalChars]

theorem totalChars_append (ts us : List String) :
    totalChars (ts ++ us) = totalChars ts + totalChars us := by
  induction ts with
  | nil => simp
  | cons s ts ih => simp [ih]; omega

@[simp] theorem charsOf_nil : charsOf [] = [] := rfl

@[simp] theorem charsOf_cons (s : String) (ts : List String) :
    charsOf (s :: ts) = s.toList ++ charsOf ts := by
  simp [charsOf]

theorem charsOf_append (ts us : List String) :
    charsOf (ts ++ us) = charsOf ts ++ charsOf us := by
  simp [charsOf]

@[simp] theorem toList_length (s : String) : s.toList.length = s.length := rfl

theorem charsOf_length (ts : List String) : (charsOf ts).length = totalChars ts := by
  induction ts with
  | nil => rfl
  | cons s ts ih =>
    simp only [charsOf_cons, List.length_append, toList_length, ih, totalChars_cons]

theorem offsetsFrom_length (ts : List String) (b : Nat) :
    (offsetsFrom b ts).length = ts.length + 1 := by
  induction ts generalizing b with
  | nil => rfl
  | cons s ts ih => simp [offsetsFrom, ih]

theorem offsetsFrom_getD_zero (ts : List String) (b : Nat) :
    (offsetsFrom b ts).getD 0 0 = b := by
  cases ts <;> rfl

theorem offsetsFrom_getD_last (ts : List String) (b : Nat) :
    (offsetsFrom b ts).getD ts.length 0 = b + totalChars ts := by
  induction ts generalizing b with
  | nil => simp [offsetsFrom]
  | cons s ts ih =>
    simp only [offsetsFrom, List.length_cons, List.getD_cons_succ, ih (b + s.length),
      totalChars_cons]
    omega

theorem offsetsFrom_snoc (ts : List String) (s : String) (b : Nat) :
    offsetsFrom b (ts ++ [s]) = offsetsFrom b ts ++ [b + totalChars ts + s.length] := by
  induction ts generalizing b with
  | nil => simp [offsetsFrom]
  | cons t ts ih =>
    show b :: offsetsFrom (b + t.length) (ts ++ [s]) = _
    rw [ih (b + t.length)]
    have h : b + t.length + totalChars ts + s.length
        = b + (t.length + totalChars ts) + s.length := by omega
    simp [offsetsFrom, h]

theorem set_append_length_add {α : Type} (l l' : List α) (i : Nat) (v : α) :
    (l ++ l').set (l.length + i) v = l ++ l'.set i v := by
  induction l with
  | nil => simp
  | cons a l ih => simp [List.set, Nat.succ_add, ih]

/-- Writing the strings `ts` in increasing index order into a buffer whose
    first `ps.length` items are already packed extends the packed region by
    `ts`, consuming the zero-initialized remainder. -/
theorem fill_strings_spec (ts : List String) : ∀ (ps : List String) (n c : Nat),
    n = ps.length + ts.length → c = totalChars ps + totalChars ts →
    fill_strings
      ⟨n, c, offsetsFrom 0 ps ++ List.replicate (n - ps.length) 0,
        charsOf ps ++ List.replicate (c - totalChars ps) (Char.ofNat 0)⟩
      ts ps.length
    = ⟨n, c, offsetsFrom 0 (ps ++ ts), charsOf (ps ++ ts)⟩ := by
  induction ts with
  | nil =>
    intro ps n c hn hc
    simp only [fill_strings]
    simp only [List.length_nil, Nat.add_zero] at hn
    simp only [totalChars_nil, Nat.add_zero] at hc
    subst hn
    subst hc
    simp
  | cons s rest ih =>
    intro ps n c hn hc
    rw [List.length_cons] at hn
    rw [totalChars_cons] at hc
    have hklen : ps.length < n := by omega
    have hrlen : totalChars ps + s.length ≤ c := by omega
    have holen : (offsetsFrom 0 ps).length = ps.length + 1 := offsetsFrom_length ps 0
    have hpos : getOffset
        ⟨n, c, offsetsFrom 0 ps ++ List.replicate (n - ps.length) 0,
          charsOf ps ++ List.replicate (c - totalChars ps) (Char.ofNat 0)⟩
        ps.length = totalChars ps := by
      unfold getOffset
      have hin : ps.length < (offsetsFrom 0 ps).length := by omega
      rw [List.getD_append _ _ 0 ps.length hin, offsetsFrom_getD_last]
      omega
    have hset : ∀ (l2 : List Nat) (v : Nat),
        (offsetsFrom 0 ps ++ l2).set (ps.length + 1) v = offsetsFrom 0 ps ++ l2.set 0 v := by
      intro l2 v
      have h := set_append_length_add (offsetsFrom 0 ps) l2 0 v
      rwa [holen, Nat.add_zero] at h
    have hoff : ((offsetsFrom 0 ps ++ List.replicate (n - ps.length) 0).set
          (ps.length + 1) (totalChars ps + s.length))
        = offsetsFrom 0 (ps ++ [s]) ++ List.replicate (n - (ps.length + 1)) 0 := by
      rw [hset]
      have hk : n - ps.length = (n - (ps.length + 1)) + 1 := by omega
      rw [hk, List.replicate_succ, List.set_cons_zero, offsetsFrom_snoc]
      simp
    have hdata : writeChars
          (charsOf ps ++ List.replicate (c - totalChars ps) (Char.ofNat 0))
          (totalChars ps) s.toList
        = charsOf (ps ++ [s])
          ++ List.replicate (c - totalChars (ps ++ [s])) (Char.ofNat 0) := by
      unfold writeChars
      have htake : (charsOf ps ++ List.replicate (c - totalChars ps)
            (Char.ofNat 0)).take (totalChars ps) = charsOf ps := by
        rw [← charsOf_length ps]
        exact List.take_left _ _
      have hdrop : (charsOf ps ++ List.replicate (c - totalChars ps)
            (Char.ofNat 0)).drop (totalChars ps + s.toList.length)
          = List.replicate (c - (totalChars ps + s.length)) (Char.ofNat 0) := by
        rw [← charsOf_length ps, List.drop_append, List.drop_replicate]
        rw [charsOf_length]
        congr 1
        simp
        omega
      rw [htake, hdrop, charsOf_append, totalChars_append]
      simp [List.append_assoc]
    simp only [fill_strings]
    rw [show setitem_string_array
          ⟨n, c, offsetsFrom 0 ps ++ List.replicate (n - ps.length) 0,
            charsOf ps ++ List.replicate (c - totalChars ps) (Char.ofNat 0)⟩
          s ps.length
        = ⟨n, c, offsetsFrom 0 (ps ++ [s]) ++ List.replicate (n - (ps.length + 1)) 0,
            charsOf (ps ++ [s])
              ++ List.replicate (c - totalChars (ps ++ [s])) (Char.ofNat 0)⟩ by
      unfold setitem_string_array
      rw [hpos]
      simp only [hoff, hdata]]
    have hn2 : n = (ps ++ [s]).length + rest.length := by
      rw [List.length_append]
      simp
      omega
    have hc2 : c = totalChars (ps ++ [s]) + totalChars rest := by
      rw [totalChars_append]
      simp
      omega
    have hlen2 : ps.length + 1 = (ps ++ [s]).length := by simp
    rw [hlen2, ih (ps ++ [s]) n c hn2 hc2]
    simp

/-- Building a buffer from a string list yields the fully packed buffer. -/
theorem str_list_to_array_eq_packed (ss : List String) :
    str_list_to_array ss = packed ss := by
  unfold str_list_to_array pre_alloc_string_array packed
  have h := fill_strings_spec ss [] ss.length (totalChars ss) (by simp) (by simp)
  simp only [List.length_nil, Nat.sub_zero, totalChars_nil, charsOf_nil,
    List.nil_append, offsetsFrom, List.append_nil] at h
  rw [show List.replicate (ss.length + 1) (0 : Nat)
      = 0 :: List.replicate ss.length 0 from List.replicate_succ 0 ss.length]
  exact h

theorem string_mk_toList (s : String) : String.mk s.toList = s := rfl

/-- Reading item `i` of a packed region preceded by an arbitrary prefix of
    `b` characters recovers the `i`-th string. -/
theorem getitem_packed_general (rest : List String) : ∀ (pre : List Char) (b i : Nat),
    b = pre.length → i < rest.length →
    String.mk (((pre ++ charsOf rest).drop ((offsetsFrom b rest).getD i 0)).take
      ((offsetsFrom b rest).getD (i + 1) 0 - (offsetsFrom b rest).getD i 0))
      = rest.getD i "" := by
  induction rest with
  | nil =>
    intro pre b i hb hi
    simp at hi
  | cons s rr ih =>
    intro pre b i hb hi
    cases i with
    | zero =>
      simp only [offsetsFrom, List.getD_cons_zero, List.getD_cons_succ,
        offsetsFrom_getD_zero, charsOf_cons, List.getD_cons_zero]
      subst hb
      rw [List.drop_left,
        show pre.length + s.length - pre.length = s.toList.length by simp,
        List.take_left, string_mk_toList]
    | succ i =>
      simp only [offsetsFrom, List.getD_cons_succ, charsOf_cons, List.getD_cons_succ]
      rw [← List.append_assoc]
      exact ih (pre ++ s.toList) (b + s.length) i (by simp [hb]) (by simpa using hi)

theorem map_range_getD {α : Type} (ts : List α) (d : α) :
    (List.range ts.length).map (fun i => ts.getD i d) = ts := by
  apply List.ext_get
  · simp
  · intro i h1 h2
    simp [List.getD_eq_getElem?_getD, List.getElem?_eq_getElem h2]

/-- Reading back every item of a packed buffer recovers the string list. -/
theorem itemsOf_packed (ts : List String) : itemsOf (packed ts) = ts := by
  have hgen : ∀ i, i < ts.length → getitem_string_array (packed ts) i = ts.getD i "" := by
    intro i hi
    have h := getitem_packed_general ts [] 0 i rfl hi
    simpa [getitem_string_array, packed, getOffset] using h
  unfold itemsOf
  rw [show (packed ts).num_items = ts.length from rfl]
  calc (List.range ts.length).map (getitem_string_array (packed ts))
      = (List.range ts.length).map (fun i => ts.getD i "") := by
        apply List.map_congr_left
        intro i hi
        exact hgen i (List.mem_range.mp hi)
    _ = ts := map_range_getD ts ""

theorem selectedItems_length (ss : List String) : ∀ (mask : List Bool),
    mask.length = ss.length →
    (selectedItems ss mask).length = countTrue mask := by
  induction ss with
  | nil =>
    intro mask h
    cases mask with
    | nil => rfl
    | cons b bs => simp at h
  | cons s ss ih =>
    intro mask h
    cases mask with
    | nil => simp at h
    | cons b bs =>
      simp only [List.length_cons, Nat.add_right_cancel_iff] at h
      cases b with
      | false => simpa [selectedItems, countTrue] using ih bs h
      | true =>
        simp only [selectedItems, if_true, List.length_cons, countTrue, List.filter]
        simpa [countTrue] using ih bs h

/-- The sizing pass of the masked getitem: folding the count/size update
    over the index range computes the selected item count and the selected
    total character count. -/
theorem pass1_spec (ss : List String) : ∀ (mask : List Bool),
    mask.length = ss.length →
    ∀ (k : Nat) (acc : Nat × Nat) (itemF : Nat → String) (mskF : Nat → Bool),
    (∀ j, j < ss.length →
        itemF (k + j) = ss.getD j "" ∧ mskF (k + j) = mask.getD j false) →
    (List.range' k ss.length).foldl
        (fun nc i => if mskF i then (nc.1 + 1, nc.2 + (itemF i).length) else nc) acc
      = (acc.1 + (selectedItems ss mask).length,
          acc.2 + totalChars (selectedItems ss mask)) := by
  induction ss with
  | nil =>
    intro mask h k acc itemF mskF hF
    simp [selectedItems]
  | cons s ss ih =>
    intro mask h k acc itemF mskF hF
    cases mask with
    | nil => simp at h
    | cons b bs =>
      simp only [List.length_cons, Nat.add_right_cancel_iff] at h
      have h0 := hF 0 (by simp)
      simp only [Nat.add_zero, List.getD_cons_zero] at h0
      have hrec : ∀ j, j < ss.length →
          itemF (k + 1 + j) = ss.getD j "" ∧ mskF (k + 1 + j) = bs.getD j false := by
        intro j hj
        have := hF (j + 1) (by simp; omega)
        simpa [show k + (j + 1) = k + 1 + j by omega] using this
      rw [show (s :: ss).length = ss.length + 1 from rfl, List.range'_succ k ss.length 1,
        List.foldl_cons]
      cases b with
      | false =>
        rw [show (if mskF k then (acc.1 + 1, acc.2 + (itemF k).length) else acc) = acc by
          simp [h0.2]]
        simpa [selectedItems] using ih bs h (k + 1) acc itemF mskF hrec
      | true =>
        rw [show (if mskF k then (acc.1 + 1, acc.2 + (itemF k).length) else acc)
            = (acc.1 + 1, acc.2 + s.length) by simp [h0.1, h0.2]]
        rw [ih bs h (k + 1) (acc.1 + 1, acc.2 + s.length) itemF mskF hrec]
        simp only [selectedItems, if_true, List.length_cons, totalChars_cons,
          Prod.mk.injEq]
        constructor <;> omega

/-- The copy pass of the masked getitem: folding the conditional setitem
    over the index range writes exactly the selected items in order. -/
theorem pass2_spec (ss : List String) : ∀ (mask : List Bool),
    mask.length = ss.length →
    ∀ (k : Nat) (out : StringArr) (ind : Nat) (itemF : Nat → String) (mskF : Nat → Bool),
    (∀ j, j < ss.length →
        itemF (k + j) = ss.getD j "" ∧ mskF (k + j) = mask.getD j false) →
    (List.range' k ss.length).foldl
        (fun os i =>
          if mskF i then (setitem_string_array os.1 (itemF i) os.2, os.2 + 1) else os)
        (out, ind)
      = (fill_strings out (selectedItems ss mask) ind,
          ind + (selectedItems ss mask).length) := by
  induction ss with
  | nil =>
    intro mask h k out ind itemF mskF hF
    simp [selectedItems, fill_strings]
  | cons s ss ih =>
    intro mask h k out ind itemF mskF hF
    cases mask with
    | nil => simp at h
    | cons b bs =>
      simp only [List.length_cons, Nat.add_right_cancel_iff] at h
      have h0 := hF 0 (by simp)
      simp only [Nat.add_zero, List.getD_cons_zero] at h0
      have hrec : ∀ j, j < ss.length →
          itemF (k + 1 + j) = ss.getD j "" ∧ mskF (k + 1 + j) = bs.getD j false := by
        intro j hj
        have := hF (j + 1) (by simp; omega)
        simpa [show k + (j + 1) = k + 1 + j by omega] using this
      rw [show (s :: ss).length = ss.length + 1 from rfl, List.range'_succ k ss.length 1,
        List.foldl_cons]
      cases b with
      | false =>
        rw [show (if mskF k then (setitem_string_array out (itemF k) ind, ind + 1)
              else (out, ind)) = (out, ind) by simp [h0.2]]
        simpa [selectedItems] using ih bs h (k + 1) out ind itemF mskF hrec
      | true =>
        rw [show (if mskF k then (setitem_string_array out (itemF k) ind, ind + 1)
              else (out, ind)) = (setitem_string_array out s ind, ind + 1) by
            simp [h0.1, h0.2]]
        rw [ih bs h (k + 1) (setitem_string_array out s ind) (ind + 1) itemF mskF hrec]
        simp only [selectedItems, if_true, fill_strings, List.length_cons,
          Prod.mk.injEq]
        exact ⟨trivial, by omega⟩

theorem getitem_packed (ss : List String) (i : Nat) (hi : i < ss.length) :
    getitem_string_array (packed ss) i = ss.getD i "" := by
  have h := getitem_packed_general ss [] 0 i rfl hi
  simpa [getitem_string_array, packed, getOffset] using h

/-- C3: a masked getitem on a string buffer of item count n fails exactly
    when the mask length differs from n; otherwise a two-pass construction
    (first sizing, then copying) returns a fresh buffer holding exactly the
    items at true mask positions in order, whose item count is the number
    of true entries; the scenario buffer filtered by the scenario mask
    yields `["bc", "a", "bc", "a"]`. -/
theorem string_getitem_bool_spec (ss : List String) (mask : List Bool) :
    (mask.length ≠ ss.length →
      str_arr_getitem_bool (str_list_to_array ss) mask
        = Except.error "boolean index did not match indexed array along dimension 0")
    ∧ (mask.length = ss.length →
      str_arr_getitem_bool (str_list_to_array ss) mask
        = Except.ok (str_list_to_array (selectedItems ss mask))
      ∧ (str_list_to_array (selectedItems ss mask)).num_items = countTrue mask
      ∧ itemsOf (str_list_to_array (selectedItems ss mask)) = selectedItems ss mask)
    ∧ (str_arr_getitem_bool
          (str_list_to_array ["bc", "a", "a", "a", "bc", "bc", "bc", "a"])
          [true, false, true, false, true, false, false, true]).map itemsOf
        = Except.ok ["bc", "a", "bc", "a"] := by
  have hpk := str_list_to_array_eq_packed ss
  have hnum : (str_list_to_array ss).num_items = ss.length := by
    rw [hpk]
    rfl
  refine ⟨?_, ?_, rfl⟩
  · intro hne
    unfold str_arr_getitem_bool
    rw [hnum, if_pos (fun h => hne h.symm)]
  · intro heq
    refine ⟨?_, ?_, ?_⟩
    · have hF : ∀ j, j < ss.length →
          (fun i => getitem_string_array (packed ss) i) (0 + j) = ss.getD j ""
          ∧ (fun i => mask.getD i false) (0 + j) = mask.getD j false := by
        intro j hj
        exact ⟨by simpa using getitem_packed ss j hj, by simp⟩
      have h1 := pass1_spec ss mask heq 0 ((0 : Nat), (0 : Nat))
        (fun i => getitem_string_array (packed ss) i) (fun i => mask.getD i false) hF
      have h2 := pass2_spec ss mask heq 0
        (pre_alloc_string_array (selectedItems ss mask).length
          (totalChars (selectedItems ss mask))) 0
        (fun i => getitem_string_array (packed ss) i) (fun i => mask.getD i false) hF
      simp only [Nat.zero_add] at h1 h2
      unfold str_arr_getitem_bool
      rw [hnum, if_neg (fun h => h heq.symm), hpk, List.range_eq_range' ss.length]
      rw [h1]
      simp only [h2]
      rfl
    · rw [str_list_to_array_eq_packed]
      rw [show (packed (selectedItems ss mask)).num_items
          = (selectedItems ss mask).length from rfl]
      exact selectedItems_length ss mask heq
    · rw [str_list_to_array_eq_packed, itemsOf_packed]

/-- Witness for `string_getitem_bool_spec`: both the mismatched-length
    failure branch and the matched-length filter branch, applied at
    concrete buffers. -/
theorem string_getitem_bool_spec_witness :
    str_arr_getitem_bool (str_list_to_array ["ab", "c"]) [true]
      = Except.error "boolean index did not match indexed array along dimension 0"
    ∧ str_arr_getitem_bool (str_list_to_array ["ab", "c", "de"]) [true, false, true]
      = Except.ok (str_list_to_array ["ab", "de"]) := by
  constructor
  · exact (string_getitem_bool_spec ["ab", "c"] [true]).1 (by decide)
  · have h := ((string_getitem_bool_spec ["ab", "c", "de"]
      [true, false, true]).2.1 (by decide)).1
    rw [h]
    rfl

/-! Type universe for the pandas-series extension (pd_series_ext.py). The
    numba types that appear in the sources are represented by `HType`:
    scalar number and string types, `types.Array` with its dtype,
    dimensionality, layout, mutability and alignment, `SeriesType` with the
    same attributes, the boxed and unboxed series markers, the string array
    type, the timestamp, slice and bound-function types, and tuples. The
    tuple payload is a mutually defined list so that equality is
    decidable. -/

/-- Memory layout tag of an array type. -/
inductive Layout where
  | C | F | A
  deriving DecidableEq, Repr

/-- Element dtypes occurring in the sources. `undefinedDt` is `types.undefined`,
    `stringD` the string dtype, `dt64ns` is `NPDatetime('ns')`, `dateD` is
    `datetime_date_type`, `intpD` is `types.intp`. -/
inductive Dt where
  | float64 | int64 | uint8 | boolean | dt64ns | dateD | stringD | undefinedDt | intpD
  deriving DecidableEq, Repr

mutual

/-- The numba type universe used by the pass. -/
inductive HType where
  | scalar (d : Dt)
  | array (d : Dt) (ndim : Nat) (layout : Layout) (mutab : Bool) (aligned : Bool)
  | series (d : Dt) (ndim : Nat) (layout : Layout) (mutab : Bool) (aligned : Bool)
  | boxedSeries (d : Dt)
  | unboxedSeries (d : Dt)
  | stringArray
  | timestamp
  | sliceTy
  | boundFunction (key : String) (this : HType)
  | tupleTy (ts : HTList)
  | otherTy (n : String)
  deriving DecidableEq, Repr

/-- A list of types (payload of a tuple type). -/
inductive HTList where
  | nil
  | cons (head : HType) (tail : HTList)
  deriving DecidableEq, Repr

end

/-- Embedding of `string_type` (str_ext.py). -/
def string_type : HType := .scalar .stringD

/-- Embedding of `string_series_type = SeriesType(string_type, 1, 'C', True)`
    (pd_series_ext.py): the readonly flag makes it immutable, alignment
    defaults to true. -/
def string_series_type : HType := .series .stringD 1 .C false true

/-- Embedding of `dt_index_series_type = SeriesType(NPDatetime('ns'), 1, 'C')`
    (pd_series_ext.py): default readonly=False, aligned=True. -/
def dt_index_series_type : HType := .series .dt64ns 1 .C true true

/-- Embedding of `is_str_arr_typ` (str_arr_ext.py): the string array type or
    the string series type. -/
def is_str_arr_typ (t : HType) : Bool :=
  t == HType.stringArray || t == string_series_type

/-- True exactly on `SeriesType` instances. -/
def isSeriesTy : HType → Bool
  | .series _ _ _ _ _ => true
  | _ => false

/-- Embedding of `series_to_array_type` (pd_series_ext.py): a series whose
    dtype is the string type becomes the string array type; a boxed series
    is kept (or, when `replace_boxed`, becomes a fresh C-contiguous array);
    any other series becomes `types.Array` with the same dtype,
    dimensionality, layout, mutability and alignment. The function is only
    applied to series and boxed-series types in the sources; on any other
    input the python code would fault, and the embedding returns the input
    unchanged. -/
def series_to_array_type (typ : HType) (replace_boxed : Bool) : HType :=
  match typ with
  | .series d n l m a => if d = .stringD then .stringArray else .array d n l m a
  | .boxedSeries d =>
    if d = .stringD then .stringArray
    else if replace_boxed then .array d 1 .C true true else .boxedSeries d
  | t => t

/-- Embedding of `arr_to_series_type` (pd_series_ext.py): an array becomes a
    series with identical attributes (the `SeriesType` constructor asserts
    one-dimensionality, modelled by `none`), the string array becomes the
    string series type, and anything else yields `None`. -/
def arr_to_series_type (arr : HType) : Option HType :=
  match arr with
  | .array d n l m a => if n = 1 then some (.series d n l m a) else none
  | .stringArray => some string_series_type
  | _ => none

mutual

/-- Embedding of `if_series_to_array_type` (pd_series_ext.py): convert a
    series (and, when requested, a boxed series) to its physical array
    type, recurse into tuples, and return anything else unchanged. -/
def if_series_to_array_type : HType → Bool → HType
  | .series d n l m a, rb => series_to_array_type (.series d n l m a) rb
  | .boxedSeries d, rb =>
    if rb then series_to_array_type (.boxedSeries d) rb else .boxedSeries d
  | .tupleTy ts, rb => .tupleTy (seriesToArrayList ts rb)
  | t, _ => t

/-- Elementwise `if_series_to_array_type` over a tuple payload. -/
def seriesToArrayList : HTList → Bool → HTList
  | .nil, _ => .nil
  | .cons t ts, rb => .cons (if_series_to_array_type t rb) (seriesToArrayList ts rb)

end

mutual

/-- Embedding of `if_arr_to_series_type` (pd_series_ext.py): re-present an
    array or the string array as a series, recurse into tuples, and return
    anything else unchanged; `none` models the assertion failure of the
    `SeriesType` constructor on a non-1d array. -/
def if_arr_to_series_type : HType → Option HType
  | .array d n l m a => arr_to_series_type (.array d n l m a)
  | .stringArray => arr_to_series_type .stringArray
  | .tupleTy ts => (arrToSeriesList ts).map .tupleTy
  | t => some t

/-- Elementwise `if_arr_to_series_type` over a tuple payload. -/
def arrToSeriesList : HTList → Option HTList
  | .nil => some .nil
  | .cons t ts =>
    match if_arr_to_series_type t, arrToSeriesList ts with
    | some u, some us => some (.cons u us)
    | _, _ => none

end

mutual

/-- Embedding of `if_series_to_unbox` (pd_series_ext.py): a series becomes
    the unboxed series marker over its dtype, tuples recurse, anything else
    is returned unchanged. -/
def if_series_to_unbox : HType → HType
  | .series d _ _ _ _ => .unboxedSeries d
  | .tupleTy ts => .tupleTy (unboxList ts)
  | t => t

/-- Elementwise `if_series_to_unbox` over a tuple payload. -/
def unboxList : HTList → HTList
  | .nil => .nil
  | .cons t ts => .cons (if_series_to_unbox t) (unboxList ts)

end

example : if_series_to_array_type dt_index_series_type false
    = .array .dt64ns 1 .C true true := by decide

example : if_series_to_array_type string_series_type false = .stringArray := by decide

example : if_arr_to_series_type (.array .float64 1 .C true true)
    = some (.series .float64 1 .C true true) := by decide

/-- C8 counterexample: for the 1-dimensional array type with the string
    element dtype the round trip is not the identity: the logical series
    over the string dtype converts back to the string buffer type, not to
    the original array type. -/
theorem logical_physical_roundtrip_counterexample :
    (arr_to_series_type (.array .stringD 1 .C true true)).map
        (fun s => series_to_array_type s false)
      = some .stringArray
    ∧ HType.stringArray ≠ .array .stringD 1 .C true true := by decide

/-- C8 (amended): for every plain 1-dimensional array type whose element
    dtype is not the string dtype (any layout, mutability and alignment),
    and for the string buffer type, converting to the logical series type
    with arr_to_series_type and back with series_to_array_type is the
    identity; an array with the string element dtype instead lands on the
    string buffer type. -/
theorem logical_physical_roundtrip (d : Dt) (l : Layout) (m a : Bool) :
    (d ≠ .stringD →
      (arr_to_series_type (.array d 1 l m a)).map
          (fun s => series_to_array_type s false)
        = some (.array d 1 l m a))
    ∧ (arr_to_series_type .stringArray).map (fun s => series_to_array_type s false)
      = some .stringArray := by
  constructor
  · intro hd
    simp [arr_to_series_type, series_to_array_type, hd]
  · decide

/-- Witness for `logical_physical_roundtrip` at the mutable aligned
    C-contiguous float64 array. -/
theorem logical_physical_roundtrip_witness :
    (arr_to_series_type (.array .float64 1 .C true true)).map
        (fun s => series_to_array_type s false)
      = some (.array .float64 1 .C true true) := by
  exact (logical_physical_roundtrip .float64 .C true true).1 (by decide)

/-- True exactly on `types.Array` and `SeriesType` instances. -/
def isArrOrSeries : HType → Bool
  | .array _ _ _ _ _ => true
  | .series _ _ _ _ _ => true
  | _ => false

/-- Element dtype of an array or series type (undef elsewhere, unused). -/
def dtypeOf : HType → Dt
  | .array d _ _ _ _ => d
  | .series d _ _ _ _ => d
  | _ => .undefinedDt

/-- The `copy(dtype)` of an array or series type: substitute the element
    dtype, keeping dimensionality, layout, mutability and alignment
    (types.Array.copy / SeriesType.copy). -/
def copy_with_dtype (t : HType) (d : Dt) : HType :=
  match t with
  | .array _ n l m a => .array d n l m a
  | .series _ n l m a => .series d n l m a
  | t => t

/-- The array-or-series branch of `_fix_typ_undefs` (hiframes_typed.py):
    the assertion that the new type is also an array or series (modelled by
    `none` on failure), then the undefined-dtype substitution, else the new
    type unchanged. -/
def fixArrSeries (new_typ : HType) (od : Dt) : Option HType :=
  match new_typ with
  | .array nd n l m a =>
    some (if nd = .undefinedDt then .array od n l m a else .array nd n l m a)
  | .series nd n l m a =>
    some (if nd = .undefinedDt then .series od n l m a else .series nd n l m a)
  | _ => none

mutual

/-- Embedding of `_fix_typ_undefs` (hiframes_typed.py): when the old type
    is an array or series, assert the new one is too and substitute the old
    dtype if the new dtype is undefined; when the old type is a tuple,
    recurse over the zipped component types (a non-tuple new type faults);
    otherwise return the new type unchanged. -/
def fix_typ_undefs : HType → HType → Option HType
  | new_typ, .array od _ _ _ _ => fixArrSeries new_typ od
  | new_typ, .series od _ _ _ _ => fixArrSeries new_typ od
  | .tupleTy ns, .tupleTy os => (fixList ns os).map .tupleTy
  | _, .tupleTy _ => none
  | new_typ, _ => some new_typ

/-- The zipped recursion of the tuple branch of `_fix_typ_undefs`
    (python `zip` truncates at the shorter list). -/
def fixList : HTList → HTList → Option HTList
  | _, .nil => some .nil
  | .nil, .cons _ _ => some .nil
  | .cons n ns, .cons o os =>
    match fix_typ_undefs n o, fixList ns os with
    | some h, some t => some (.cons h t)
    | _, _ => none

end

/-- Conversion from the tuple payload to a plain list. -/
def HTList.toList : HTList → List HType
  | .nil => []
  | .cons t ts => t :: ts.toList

/-- Conversion from a plain list to a tuple payload. -/
def HTList.ofList : List HType → HTList
  | [] => .nil
  | t :: ts => .cons t (HTList.ofList ts)

theorem fixList_eq_zip_mapM : (ns os : HTList) →
    fixList ns os
      = ((ns.toList.zip os.toList).mapM
          (fun p => fix_typ_undefs p.1 p.2)).map HTList.ofList
  | .nil, os => by
    cases os <;> simp [fixList, HTList.toList, HTList.ofList] <;> rfl
  | .cons n ns, .nil => by
    simp [fixList, HTList.toList, HTList.ofList]
    rfl
  | .cons n ns, .cons o os => by
    have ih := fixList_eq_zip_mapM ns os
    simp only [fixList, HTList.toList, List.zip_cons_cons, List.mapM_cons, ih]
    cases fix_typ_undefs n o with
    | none => simp
    | some h =>
      cases hz : (ns.toList.zip os.toList).mapM (fun p => fix_typ_undefs p.1 p.2) with
      | none => simp [hz]
      | some l => simp [hz, HTList.ofList]

/-- C9 counterexample: with a previously recorded array type and a newly
    derived scalar type the fixup does not return the new type unchanged as
    the claim states; the assertion of `_fix_typ_undefs` fails (modelled by
    `none`). -/
theorem fix_typ_undefs_counterexample :
    fix_typ_undefs (.scalar .int64) (.array .float64 1 .C true true) = none
    ∧ (none : Option HType) ≠ some (.scalar .int64) := by decide

set_option linter.unreachableTactic false in
set_option linter.unusedTactic false in
/-- C9 (amended): when the old type is an array or series and the new type
    is too, an undefined new element dtype is replaced by the old element
    dtype with all other attributes of the new type kept, and otherwise the
    new type is returned; when the old type is an array or series but the
    new one is not, the code asserts (rather than returning the new type);
    when the old type is a tuple the fixup is applied elementwise to the
    zipped component types; in every remaining case the new type is
    returned unchanged. -/
theorem fix_typ_undefs_spec (new_typ old_typ : HType) :
    (isArrOrSeries old_typ = true → isArrOrSeries new_typ = true →
      fix_typ_undefs new_typ old_typ
        = some (if dtypeOf new_typ = Dt.undefinedDt
                then copy_with_dtype new_typ (dtypeOf old_typ) else new_typ))
    ∧ (isArrOrSeries old_typ = true → isArrOrSeries new_typ = false →
      fix_typ_undefs new_typ old_typ = none)
    ∧ (∀ ns os : HTList, fix_typ_undefs (.tupleTy ns) (.tupleTy os)
        = ((ns.toList.zip os.toList).mapM
            (fun p => fix_typ_undefs p.1 p.2)).map
          (fun l => HType.tupleTy (HTList.ofList l)))
    ∧ (isArrOrSeries old_typ = false → (∀ os, old_typ ≠ .tupleTy os) →
      fix_typ_undefs new_typ old_typ = some new_typ) := by
  refine ⟨?_, ?_, ?_, ?_⟩
  · intro ho hn
    cases old_typ <;> simp [isArrOrSeries] at ho <;>
      cases new_typ <;> simp [isArrOrSeries] at hn <;>
      simp [fix_typ_undefs, fixArrSeries, dtypeOf, copy_with_dtype] <;>
      split <;> simp
  · intro ho hn
    cases old_typ <;> simp [isArrOrSeries] at ho <;>
      cases new_typ <;> simp [isArrOrSeries] at hn <;>
      simp [fix_typ_undefs, fixArrSeries]
  · intro ns os
    rw [show fix_typ_undefs (.tupleTy ns) (.tupleTy os)
        = (fixList ns os).map HType.tupleTy from rfl, fixList_eq_zip_mapM]
    cases (ns.toList.zip os.toList).mapM (fun p => fix_typ_undefs p.1 p.2) <;> simp
  · intro ho hnt
    cases old_typ <;> simp [isArrOrSeries] at ho <;>
      first
      | exact absurd rfl (hnt _)
      | cases new_typ <;> rfl

/-- Witness for `fix_typ_undefs_spec`: an undefined-dtype array inherits
    the recorded float64 dtype while keeping its own shape attributes, and
    a scalar old type returns the new type unchanged. -/
theorem fix_typ_undefs_spec_witness :
    fix_typ_undefs (.array .undefinedDt 1 .C true true) (.array .float64 2 .F false true)
      = some (.array .float64 1 .C true true)
    ∧ fix_typ_undefs (.scalar .boolean) (.scalar .int64) = some (.scalar .boolean) := by
  constructor
  · have h := (fix_typ_undefs_spec (.array .undefinedDt 1 .C true true)
      (.array .float64 2 .F false true)).1 (by decide) (by decide)
    rw [h]
    decide
  · have h := (fix_typ_undefs_spec (.scalar .boolean) (.scalar .int64)).2.2.2
      (by decide) (by intro os h; cases h)
    exact h

/-! IR rewrite engine (hiframes_typed.py). Statements are modelled by the
    shape of their right-hand side together with the variables they read;
    the dispatch of `_run_assign` depends only on those shapes and on the
    types recorded in the type map, so the embedding carries exactly that
    information and reports whether the statement is left unchanged,
    replaced by a generated subgraph, or raises. -/

/-- The six relational comparison operators. -/
inductive CmpFn where
  | eq | ne | ge | gt | le | lt
  deriving DecidableEq, Repr

/-- A binop operator: one of the six comparisons or any other operator
    (arithmetic and the like), which the comparison dispatch ignores. -/
inductive BinFn where
  | cmpF (c : CmpFn)
  | otherF (s : String)
  deriving DecidableEq, Repr

/-- Operand access of the synthesized string-comparison loop body:
    the whole first or second operand, or its i-th element. -/
inductive Access where
  | wholeA | wholeB | elemA | elemB
  deriving DecidableEq, Repr

/-- Which operand the synthesized loop measures its length on. -/
inductive LenSrc where
  | lenA | lenB
  deriving DecidableEq, Repr

/-- The shape of the loop generated by `_handle_string_array_expr`: the
    length source, the two operand accesses of `S[i] = lhs fn rhs`, and
    the operator. -/
structure StrCmpLoop where
  lenOn : LenSrc
  lhsAcc : Access
  rhsAcc : Access
  fn : CmpFn
  deriving DecidableEq, Repr

/-- The access/length computation of `_handle_string_array_expr`
    (hiframes_typed.py): `arg1_access` starts as `A` and `len_call` as
    `len(A)`; if the first operand is a string column `arg1_access` becomes
    `A[i]`; if the second operand is a string column, the code again
    assigns `arg1_access` (to `B[i]`) and the length source becomes
    `len(B)`; `arg2_access` always stays the whole `B`. -/
def mkStrCmpLoop (c : CmpFn) (t1 t2 : HType) : StrCmpLoop :=
  let a1 := Access.wholeA
  let len := LenSrc.lenA
  let a1 := if is_str_arr_typ t1 then Access.elemA else a1
  let al := if is_str_arr_typ t2 then (Access.elemB, LenSrc.lenB) else (a1, len)
  { lenOn := al.2, lhsAcc := al.1, rhsAcc := Access.wholeB, fn := c }

/-- Embedding of the dispatch of `_handle_string_array_expr`
    (hiframes_typed.py): fires exactly on a relational binop with a string
    column (buffer or series) on either side. -/
def handle_string_array_expr (fn : BinFn) (t1 t2 : HType) : Option StrCmpLoop :=
  match fn with
  | .cmpF c =>
    if is_str_arr_typ t1 || is_str_arr_typ t2 then some (mkStrCmpLoop c t1 t2)
    else none
  | .otherF _ => none

/-- The operand accesses the C7 claim describes: element access for a
    string-column operand, the whole scalar otherwise, preserving operand
    order. -/
def claimedAccesses (t1 t2 : HType) : Access × Access :=
  (if is_str_arr_typ t1 then .elemA else .wholeA,
   if is_str_arr_typ t2 then .elemB else .wholeB)

/-- Embedding of `_is_dt_index_binop` (hiframes_typed.py): a relational
    binop with the datetime-index series type on exactly one side. -/
def is_dt_index_binop (fn : BinFn) (t1 t2 : HType) : Bool :=
  match fn with
  | .otherF _ => false
  | .cmpF _ =>
    (t1 == dt_index_series_type || t2 == dt_index_series_type)
      && !(t1 == dt_index_series_type && t2 == dt_index_series_type)

/-- The shape of the loop generated by `_handle_dt_index_binop`: whether
    the datetime-index operand is the left operand of the element
    comparison, and the operator. -/
structure DtIndexLoop where
  dtIndexIsLeft : Bool
  fn : CmpFn
  deriving DecidableEq, Repr

/-- Embedding of `_handle_dt_index_binop` (hiframes_typed.py): both operand
    types must be the datetime-index series type or the string type, else a
    ValueError is raised; the generated comparison keeps the operand order,
    with the parsed text on the other side. -/
def handle_dt_index_binop (fn : CmpFn) (t1 t2 : HType) : Except String DtIndexLoop :=
  if ¬ ((t1 = dt_index_series_type ∨ t1 = string_type)
      ∧ (t2 = dt_index_series_type ∨ t2 = string_type)) then
    .error "DatetimeIndex operation not supported"
  else .ok ⟨t1 == dt_index_series_type, fn⟩

/-- Modelled from the spec: `hpat.pd_timestamp_ext.parse_datetime_str`
    (pd_timestamp_ext.py is not under src/) parses date text into a
    point-in-time value; ISO `YYYY-MM-DD` text is modelled by the numeral
    its digits form, which is order-isomorphic to chronological order. -/
def parse_datetime_str (s : String) : Nat :=
  s.toList.foldl (fun a c => if c.isDigit then a * 10 + (c.toNat - 48) else a) 0

/-- Comparison of two point-in-time values by a relational operator. -/
def cmpNat (fn : CmpFn) (a b : Nat) : Bool :=
  match fn with
  | .eq => a == b
  | .ne => a != b
  | .ge => decide (a ≥ b)
  | .gt => decide (a > b)
  | .le => decide (a ≤ b)
  | .lt => decide (a < b)

/-- Semantics of the loop generated by `_handle_dt_index_binop`: the text
    operand is parsed once before the loop, and element i of the boolean
    output compares the i-th datetime-index value with it, preserving
    operand order. -/
def eval_dt_index_loop (L : DtIndexLoop) (dt_index : List Nat) (s : String) : List Bool :=
  let other := parse_datetime_str s
  dt_index.map (fun d =>
    if L.dtIndexIsLeft then cmpNat L.fn d other else cmpNat L.fn other d)

/-- Right-hand sides of assignments, by dispatch-relevant shape. -/
inductive RhsE where
  | getattrE (v : String) (attr : String)
  | binopE (fn : BinFn) (l r : String)
  | getitemE (v idx : String)
  | staticGetitemE (v : String)
  | callE (fdef : Option (String × String)) (argVars : List String)
  | otherE
  deriving DecidableEq, Repr

/-- A statement: an assignment or anything else (left untouched). -/
inductive StmtE where
  | assignE (target : String) (rhs : RhsE)
  | nonAssignE
  deriving DecidableEq, Repr

/-- The type map: variable name to recorded type. -/
abbrev TypeMapE := List (String × HType)

/-- Lookup of a variable type. -/
def typeofV (tm : TypeMapE) (v : String) : HType :=
  ((tm.find? (fun p => p.1 == v)).map Prod.snd).getD (.otherTy "missing")

/-- Embedding of `is_bool_arr` (hiframes_typed.py): a numpy array type with
    the boolean dtype. -/
def is_bool_arr (t : HType) : Bool :=
  match t with
  | .array .boolean _ _ _ _ => true
  | _ => false

/-- A numpy array or string array type (the `fix_df_array` condition). -/
def isArrayOrStrArr : HType → Bool
  | .array _ _ _ _ _ => true
  | .stringArray => true
  | _ => false

/-- Outcome of `_run_assign` on one statement: left unchanged, replaced by
    a generated subgraph, or raising an error. -/
inductive StepRes where
  | unchanged
  | rewritten
  | raised (msg : String)
  deriving DecidableEq, Repr

/-- Embedding of `_run_call_hiframes` (hiframes_typed.py): rewrites
    `to_series_type` / `to_arr_from_series`, the two `str_contains`
    functions, `fix_df_array` on an array argument, `fix_rolling_array`,
    and the column reductions of `_handle_df_col_calls`; any other name is
    left unchanged. -/
def run_call_hiframes (tm : TypeMapE) (args : List String) (name : String) : StepRes :=
  if name = "to_series_type" ∨ name = "to_arr_from_series" then .rewritten
  else if name = "str_contains_regex" ∨ name = "str_contains_noregex" then .rewritten
  else if name = "fix_df_array" ∧ isArrayOrStrArr (typeofV tm (args.getD 0 "")) then
    .rewritten
  else if name = "fix_rolling_array" then .rewritten
  else if name = "count" ∨ name = "fillna" ∨ name = "column_sum" ∨ name = "mean"
      ∨ name = "var" then .rewritten
  else .unchanged

/-- Embedding of the dispatch of `_run_assign` (hiframes_typed.py), in the
    order of the source: `.values` on a series, the string-comparison
    rewrite, the df-column boolean filter, getitem on the datetime-index
    series, recognized calls (`pd.DatetimeIndex`, the hiframes_api
    functions, `np.empty_like`; an unresolvable callee only warns), and the
    datetime-index binop; everything else is left unchanged. -/
def run_assign (tm : TypeMapE) (df_cols : List String) (s : StmtE) : StepRes :=
  match s with
  | .nonAssignE => .unchanged
  | .assignE lhs rhs =>
    match rhs with
    | .getattrE v attr =>
      if isSeriesTy (typeofV tm v) ∧ attr = "values" then .rewritten else .unchanged
    | .binopE fn l r =>
      match handle_string_array_expr fn (typeofV tm l) (typeofV tm r) with
      | some _ => .rewritten
      | none =>
        if is_dt_index_binop fn (typeofV tm l) (typeofV tm r) then
          match fn with
          | .cmpF c =>
            match handle_dt_index_binop c (typeofV tm l) (typeofV tm r) with
            | .error m => .raised m
            | .ok _ => .rewritten
          | .otherF _ => .unchanged
        else .unchanged
    | .getitemE v idx =>
      if v ∈ df_cols ∧ lhs ∈ df_cols ∧ is_bool_arr (typeofV tm idx) then .rewritten
      else if typeofV tm v = dt_index_series_type then .rewritten
      else .unchanged
    | .staticGetitemE v =>
      if typeofV tm v = dt_index_series_type then .rewritten else .unchanged
    | .callE fdef args =>
      match fdef with
      | none => .unchanged
      | some (name, mod) =>
        if name = "DatetimeIndex" ∧ mod = "pandas" then .rewritten
        else if mod = "hpat.hiframes_api" then run_call_hiframes tm args name
        else if name = "empty_like" ∧ mod = "numpy" then .rewritten
        else .unchanged
    | .otherE => .unchanged

example :
    run_assign [("x", dt_index_series_type), ("y", string_type)] []
      (.assignE "z" (.binopE (.cmpF .ge) "x" "y")) = .rewritten := by decide

example :
    eval_dt_index_loop ⟨true, .ge⟩
      (["2015-01-03", "2010-10-11"].map parse_datetime_str) "2011-10-23"
    = [true, false] := by decide

/-- C7: evaluation of the string-comparison rewrite at concrete failing
    inputs. For a scalar-text left operand and a string-buffer right
    operand the synthesized loop body compares `B[i]` with the whole right
    operand `B`: the second-operand branch of `_handle_string_array_expr`
    assigns `arg1_access` instead of `arg2_access`, so the claimed
    (and typing-template) body comparing the scalar `A` with `B[i]` is not
    generated; the buffer-vs-buffer pairing likewise yields `(B[i], B)`
    instead of `(A[i], B[i])`. -/
theorem string_cmp_codegen_bug :
    handle_string_array_expr (.cmpF .eq) string_type .stringArray
      = some { lenOn := .lenB, lhsAcc := .elemB, rhsAcc := .wholeB, fn := .eq }
    ∧ claimedAccesses string_type .stringArray = (Access.wholeA, Access.elemB)
    ∧ handle_string_array_expr (.cmpF .lt) .stringArray .stringArray
      = some { lenOn := .lenB, lhsAcc := .elemB, rhsAcc := .wholeB, fn := .lt }
    ∧ claimedAccesses .stringArray .stringArray = (Access.elemA, Access.elemB)
    ∧ (Access.elemB, Access.wholeB) ≠ (Access.wholeA, Access.elemB)
    ∧ (Access.elemB, Access.wholeB) ≠ (Access.elemA, Access.elemB)
    ∧ handle_string_array_expr (.cmpF .eq) .stringArray string_type
      = some { lenOn := .lenA, lhsAcc := .elemA, rhsAcc := .wholeB, fn := .eq } := by
  decide

/-- C4 counterexample: a relational binop whose two sides are both the
    datetime-index series type is dispatched by neither rule:
    `_is_dt_index_binop` rejects it and the statement is left unchanged,
    while the claim demands an UnsupportedOperand failure. -/
theorem dt_index_binop_counterexample :
    run_assign [("x", dt_index_series_type), ("y", dt_index_series_type)] []
        (.assignE "z" (.binopE (.cmpF .eq) "x" "y"))
      = .unchanged
    ∧ (∀ m : String, StepRes.unchanged ≠ .raised m) := by
  refine ⟨by decide, ?_⟩
  intro m h
  cases h

/-- C4 (amended): a relational binop with the datetime-index series type on
    exactly one side and the scalar string type on the other is rewritten
    into a loop that parses the text once and compares element-wise in
    operand order; with exactly one datetime-index side and a non-text,
    non-string-column other side it raises the unsupported-operand error;
    with the datetime-index type on both sides the statement is left
    unchanged; the scenario column compared to "2011-10-23" with >= yields
    [true, false]. -/
theorem dt_index_binop_spec (fn : CmpFn) (t1 t2 : HType) :
    ((t1 = dt_index_series_type ∧ t2 = string_type) ∨
      (t1 = string_type ∧ t2 = dt_index_series_type) →
      run_assign [("x", t1), ("y", t2)] [] (.assignE "z" (.binopE (.cmpF fn) "x" "y"))
        = .rewritten
      ∧ handle_dt_index_binop fn t1 t2
        = Except.ok ⟨t1 == dt_index_series_type, fn⟩)
    ∧ (t1 = dt_index_series_type → t2 ≠ dt_index_series_type → t2 ≠ string_type →
      is_str_arr_typ t2 = false →
      run_assign [("x", t1), ("y", t2)] [] (.assignE "z" (.binopE (.cmpF fn) "x" "y"))
        = .raised "DatetimeIndex operation not supported")
    ∧ (t2 = dt_index_series_type → t1 ≠ dt_index_series_type → t1 ≠ string_type →
      is_str_arr_typ t1 = false →
      run_assign [("x", t1), ("y", t2)] [] (.assignE "z" (.binopE (.cmpF fn) "x" "y"))
        = .raised "DatetimeIndex operation not supported")
    ∧ (t1 = dt_index_series_type → t2 = dt_index_series_type →
      run_assign [("x", t1), ("y", t2)] [] (.assignE "z" (.binopE (.cmpF fn) "x" "y"))
        = .unchanged)
    ∧ (handle_dt_index_binop .ge dt_index_series_type string_type
        = Except.ok ⟨true, .ge⟩
      ∧ eval_dt_index_loop ⟨true, .ge⟩
          (["2015-01-03", "2010-10-11"].map parse_datetime_str) "2011-10-23"
        = [true, false]) := by
  have htx : typeofV [("x", t1), ("y", t2)] "x" = t1 := by
    simp [typeofV, List.find?]
  have hty : typeofV [("x", t1), ("y", t2)] "y" = t2 := by
    simp [typeofV, List.find?]
  refine ⟨?_, ?_, ?_, ?_, rfl, by decide⟩
  · rintro (⟨h1, h2⟩ | ⟨h1, h2⟩) <;> subst h1 <;> subst h2 <;> exact ⟨rfl, rfl⟩
  · intro h1 hne hns hnsa
    subst h1
    simp only [run_assign, htx, hty]
    rw [show handle_string_array_expr (.cmpF fn) dt_index_series_type t2 = none by
      simp [handle_string_array_expr, hnsa,
        show is_str_arr_typ dt_index_series_type = false from by decide]]
    rw [if_pos (show is_dt_index_binop (.cmpF fn) dt_index_series_type t2 = true by
      simp [is_dt_index_binop, hne])]
    rw [show handle_dt_index_binop fn dt_index_series_type t2
        = Except.error "DatetimeIndex operation not supported" by
      simp [handle_dt_index_binop]
      exact ⟨hne, hns⟩]
  · intro h2 hne hns hnsa
    subst h2
    simp only [run_assign, htx, hty]
    rw [show handle_string_array_expr (.cmpF fn) t1 dt_index_series_type = none by
      simp [handle_string_array_expr, hnsa,
        show is_str_arr_typ dt_index_series_type = false from by decide]]
    rw [if_pos (show is_dt_index_binop (.cmpF fn) t1 dt_index_series_type = true by
      simp [is_dt_index_binop, hne])]
    rw [show handle_dt_index_binop fn t1 dt_index_series_type
        = Except.error "DatetimeIndex operation not supported" by
      simp [handle_dt_index_binop]
      exact ⟨hne, hns⟩]
  · intro h1 h2
    subst h1
    subst h2
    rfl

/-- Witness for `dt_index_binop_spec`: the rewrite at the temporal-vs-text
    pairing, the raise at a temporal-vs-int pairing, and the no-op at the
    temporal-vs-temporal pairing. -/
theorem dt_index_binop_spec_witness :
    run_assign [("x", dt_index_series_type), ("y", string_type)] []
        (.assignE "z" (.binopE (.cmpF .ge) "x" "y")) = .rewritten
    ∧ run_assign [("x", dt_index_series_type), ("y", .scalar .int64)] []
        (.assignE "z" (.binopE (.cmpF .ge) "x" "y"))
      = .raised "DatetimeIndex operation not supported"
    ∧ run_assign [("x", dt_index_series_type), ("y", dt_index_series_type)] []
        (.assignE "z" (.binopE (.cmpF .ge) "x" "y")) = .unchanged := by
  refine ⟨?_, ?_, ?_⟩
  · exact ((dt_index_binop_spec .ge dt_index_series_type string_type).1
      (Or.inl ⟨rfl, rfl⟩)).1
  · exact (dt_index_binop_spec .ge dt_index_series_type (.scalar .int64)).2.1
      rfl (by decide) (by decide) (by decide)
  · exact (dt_index_binop_spec .ge dt_index_series_type
      dt_index_series_type).2.2.2.1 rfl rfl

/-! The post-traversal sweep of `HiFramesTyped.run` (hiframes_typed.py):
    series-typed entries of the type map are replaced by their physical
    array types, bound functions over series receivers are re-resolved over
    the physical receiver, call signatures are mapped through
    `if_series_to_array_type`, re-derived call signatures are reconciled
    through `_fix_typ_undefs`, and the declared result type is re-wrapped
    through `if_series_to_unbox`. -/

mutual

/-- True when a type is a series, contains one in a tuple component, or is
    a bound function over a series receiver. -/
def containsSeries : HType → Bool
  | .series _ _ _ _ _ => true
  | .tupleTy ts => containsSeriesList ts
  | .boundFunction _ this => containsSeries this
  | _ => false

/-- List version of `containsSeries`. -/
def containsSeriesList : HTList → Bool
  | .nil => false
  | .cons t ts => containsSeries t || containsSeriesList ts

end

mutual

/-- True when a type is a series or contains one in a tuple component
    (bound-function receivers excluded: the signature mapping of the sweep
    does not look inside bound functions). -/
def tupleHasSeries : HType → Bool
  | .series _ _ _ _ _ => true
  | .tupleTy ts => tupleHasSeriesList ts
  | _ => false

/-- List version of `tupleHasSeries`. -/
def tupleHasSeriesList : HTList → Bool
  | .nil => false
  | .cons t ts => tupleHasSeries t || tupleHasSeriesList ts

end

mutual

/-- True when a type is or contains a boxed series marker. -/
def containsBoxed : HType → Bool
  | .boxedSeries _ => true
  | .tupleTy ts => containsBoxedList ts
  | .boundFunction _ this => containsBoxed this
  | _ => false

/-- List version of `containsBoxed`. -/
def containsBoxedList : HTList → Bool
  | .nil => false
  | .cons t ts => containsBoxed t || containsBoxedList ts

end

/-- True exactly on bound functions whose receiver is a series. -/
def isBoundFnOfSeries : HType → Bool
  | .boundFunction _ this => isSeriesTy this
  | _ => false

/-- Prefix test on strings by character lists (python `str.startswith`). -/
def str_starts_with (s p : String) : Bool :=
  s.toList.take p.toList.length == p.toList

/-- One entry of the series-replacement sweep of `HiFramesTyped.run`
    (hiframes_typed.py): a series entry becomes its physical array type; a
    bound function over a series receiver is re-resolved over the physical
    receiver — the numba attribute resolver itself is external, and the
    sweep asserts the typing key starts with `array.` (modelled by `none`
    on failure); every other entry, including boxed series markers, is kept
    unchanged. -/
def sweep_entry (t : HType) : Option HType :=
  match t with
  | .series d n l m a => some (series_to_array_type (.series d n l m a) false)
  | .boundFunction key this =>
    if isSeriesTy this then
      if str_starts_with key "array." then
        some (.boundFunction key (series_to_array_type this false))
      else none
    else some (.boundFunction key this)
  | t => some t

/-- The series-replacement sweep over the whole type map, entry by
    entry. -/
def sweep_typemap : TypeMapE → Option TypeMapE
  | [] => some []
  | q :: tm =>
    match sweep_entry q.2, sweep_typemap tm with
    | some u, some rest => some ((q.1, u) :: rest)
    | _, _ => none

/-- A call signature: return type and argument types. -/
structure SigE where
  ret : HType
  args : List HType
  deriving DecidableEq, Repr

/-- The in-place signature mapping of `HiFramesTyped.run`: the return type
    and every argument type through `if_series_to_array_type`. -/
def sweep_sig (s : SigE) : SigE :=
  ⟨if_series_to_array_type s.ret false,
    s.args.map (fun a => if_series_to_array_type a false)⟩

/-- The reconciliation of a re-derived call signature with the recorded
    one (`HiFramesTyped.run`): `_fix_typ_undefs` on the return types and on
    the zipped argument types. -/
def recompute_sig (new_sig old_sig : SigE) : Option SigE :=
  match fix_typ_undefs new_sig.ret old_sig.ret,
      (new_sig.args.zip old_sig.args).mapM (fun p => fix_typ_undefs p.1 p.2) with
  | some r, some as2 => some ⟨r, as2⟩
  | _, _ => none

theorem series_to_array_not_series (d : Dt) (n : Nat) (l : Layout) (m a : Bool) :
    isSeriesTy (series_to_array_type (.series d n l m a) false) = false := by
  by_cases h : d = .stringD <;> simp [series_to_array_type, h, isSeriesTy]

theorem sweep_entry_no_series (t u : HType) (h : sweep_entry t = some u) :
    isSeriesTy u = false ∧ isBoundFnOfSeries u = false := by
  cases t with
  | series d n l m a =>
    simp only [sweep_entry, Option.some.injEq] at h
    subst h
    exact ⟨series_to_array_not_series d n l m a, by
      by_cases hd : d = .stringD <;> simp [series_to_array_type, hd, isBoundFnOfSeries]⟩
  | boundFunction key this =>
    by_cases hs : isSeriesTy this = true
    · simp only [sweep_entry, hs, if_true] at h
      by_cases hk : str_starts_with key "array." = true
      · simp only [hk, if_true, Option.some.injEq] at h
        subst h
        cases this <;> first
          | exact ⟨rfl, series_to_array_not_series _ _ _ _ _⟩
          | simp [isSeriesTy] at hs
      · simp [hk] at h
    · have hs2 : isSeriesTy this = false := by simpa using hs
      simp only [sweep_entry, hs2, Bool.false_eq_true, if_false,
        Option.some.injEq] at h
      subst h
      exact ⟨rfl, by simp [isBoundFnOfSeries, hs2]⟩
  | scalar d => simp [sweep_entry] at h; subst h; exact ⟨rfl, rfl⟩
  | array d n l m a => simp [sweep_entry] at h; subst h; exact ⟨rfl, rfl⟩
  | boxedSeries d => simp [sweep_entry] at h; subst h; exact ⟨rfl, rfl⟩
  | unboxedSeries d => simp [sweep_entry] at h; subst h; exact ⟨rfl, rfl⟩
  | stringArray => simp [sweep_entry] at h; subst h; exact ⟨rfl, rfl⟩
  | timestamp => simp [sweep_entry] at h; subst h; exact ⟨rfl, rfl⟩
  | sliceTy => simp [sweep_entry] at h; subst h; exact ⟨rfl, rfl⟩
  | tupleTy ts => simp [sweep_entry] at h; subst h; exact ⟨rfl, rfl⟩
  | otherTy nm => simp [sweep_entry] at h; subst h; exact ⟨rfl, rfl⟩

mutual

theorem if_series_to_array_no_series : ∀ t : HType,
    tupleHasSeries (if_series_to_array_type t false) = false
  | .series d n l m a => by
    by_cases h : d = .stringD <;>
      simp [if_series_to_array_type, series_to_array_type, h, tupleHasSeries]
  | .boxedSeries d => by simp [if_series_to_array_type, tupleHasSeries]
  | .tupleTy ts => by
    simpa [if_series_to_array_type, tupleHasSeries]
      using seriesToArrayList_no_series ts
  | .scalar d => rfl
  | .array d n l m a => rfl
  | .unboxedSeries d => rfl
  | .stringArray => rfl
  | .timestamp => rfl
  | .sliceTy => rfl
  | .boundFunction key this => rfl
  | .otherTy nm => rfl

theorem seriesToArrayList_no_series : ∀ ts : HTList,
    tupleHasSeriesList (seriesToArrayList ts false) = false
  | .nil => rfl
  | .cons t ts => by
    simp [seriesToArrayList, tupleHasSeriesList, if_series_to_array_no_series t,
      seriesToArrayList_no_series ts]

end

theorem sweep_typemap_mem (tm : TypeMapE) : ∀ (tm2 : TypeMapE),
    sweep_typemap tm = some tm2 → ∀ p ∈ tm2, ∃ q ∈ tm, sweep_entry q.2 = some p.2 := by
  induction tm with
  | nil =>
    intro tm2 h p hp
    simp only [sweep_typemap, Option.some.injEq] at h
    subst h
    simp at hp
  | cons q tm ih =>
    intro tm2 h p hp
    simp only [sweep_typemap] at h
    cases hq : sweep_entry q.2 with
    | none => simp [hq] at h
    | some u =>
      cases hrest : sweep_typemap tm with
      | none => simp [hq, hrest] at h
      | some tm3 =>
        simp only [hq, hrest, Option.some.injEq] at h
        subst h
        rcases List.mem_cons.mp hp with hp1 | hp2
        · exact ⟨q, by simp, by rw [hp1, hq]⟩
        · obtain ⟨r, hr, hre⟩ := ih tm3 hrest p hp2
          exact ⟨r, by simp [hr], hre⟩

/-- C5 counterexample: a boxed-series entry of the type map survives the
    sweep unchanged (the pass deliberately keeps boxed series variables, as
    the XXX comment beside `if_series_to_array_type` records), so after the
    pass the type map still references a boxed series type, contradicting
    the claim. -/
theorem series_sweep_counterexample :
    sweep_typemap [("v", HType.boxedSeries .float64)]
      = some [("v", HType.boxedSeries .float64)]
    ∧ containsBoxed (HType.boxedSeries .float64) = true := by decide

/-- C5 (amended): after the sweep no type-map entry is a series type or a
    bound function over a series receiver, and after the in-place signature
    mapping no argument or return position of a call signature is or
    contains (inside tuples) a series type; boxed series entries, however,
    deliberately survive; the returned overall result type is the declared
    result type with every series re-wrapped as the unboxed series marker
    over its dtype. -/
theorem series_sweep_spec (tm tm2 : TypeMapE) (sig : SigE) (d : Dt) (n : Nat)
    (l : Layout) (m a : Bool) :
    (sweep_typemap tm = some tm2 →
      ∀ p ∈ tm2, isSeriesTy p.2 = false ∧ isBoundFnOfSeries p.2 = false)
    ∧ tupleHasSeries (sweep_sig sig).ret = false
    ∧ (∀ t ∈ (sweep_sig sig).args, tupleHasSeries t = false)
    ∧ if_series_to_unbox (.series d n l m a) = .unboxedSeries d := by
  refine ⟨?_, ?_, ?_, rfl⟩
  · intro h p hp
    obtain ⟨q, _, hqe⟩ := sweep_typemap_mem tm tm2 h p hp
    exact sweep_entry_no_series q.2 p.2 hqe
  · exact if_series_to_array_no_series sig.ret
  · intro t ht
    simp only [sweep_sig, List.mem_map] at ht
    obtain ⟨u, _, hu⟩ := ht
    rw [← hu]
    exact if_series_to_array_no_series u

/-- Witness for `series_sweep_spec`: sweeping a map with a series entry, a
    bound-function-of-series entry and a boxed entry leaves no series or
    bound-function-of-series entries. -/
theorem series_sweep_spec_witness :
    (∀ p ∈ [("s", HType.array .dt64ns 1 .C true true),
        ("f", HType.boundFunction "array.argsort" (.array .dt64ns 1 .C true true)),
        ("b", HType.boxedSeries .float64)],
      isSeriesTy p.2 = false ∧ isBoundFnOfSeries p.2 = false)
    ∧ tupleHasSeries (sweep_sig ⟨dt_index_series_type,
        [string_series_type, .scalar .intpD]⟩).ret = false := by
  constructor
  · exact (series_sweep_spec
      [("s", dt_index_series_type),
        ("f", HType.boundFunction "array.argsort" dt_index_series_type),
        ("b", HType.boxedSeries .float64)]
      [("s", HType.array .dt64ns 1 .C true true),
        ("f", HType.boundFunction "array.argsort" (.array .dt64ns 1 .C true true)),
        ("b", HType.boxedSeries .float64)]
      ⟨.scalar .int64, []⟩ .float64 1 .C true true).1 (by decide)
  · exact (series_sweep_spec [] [] ⟨dt_index_series_type,
      [string_series_type, .scalar .intpD]⟩ .float64 1 .C true true).2.1

mutual

theorem if_series_to_array_id_of_no_series : ∀ t : HType,
    containsSeries t = false → if_series_to_array_type t false = t
  | .series d n l m a => by intro h; simp [containsSeries] at h
  | .boxedSeries d => by intro h; rfl
  | .tupleTy ts => by
    intro h
    simp only [containsSeries] at h
    simp only [if_series_to_array_type, HType.tupleTy.injEq]
    exact seriesToArrayList_id_of_no_series ts h
  | .scalar d => by intro h; rfl
  | .array d n l m a => by intro h; rfl
  | .unboxedSeries d => by intro h; rfl
  | .stringArray => by intro h; rfl
  | .timestamp => by intro h; rfl
  | .sliceTy => by intro h; rfl
  | .boundFunction key this => by intro h; rfl
  | .otherTy nm => by intro h; rfl

theorem seriesToArrayList_id_of_no_series : ∀ ts : HTList,
    containsSeriesList ts = false → seriesToArrayList ts false = ts
  | .nil => by intro h; rfl
  | .cons t ts => by
    intro h
    simp only [containsSeriesList, Bool.or_eq_false_iff] at h
    simp only [seriesToArrayList, HTList.cons.injEq]
    exact ⟨if_series_to_array_id_of_no_series t h.1,
      seriesToArrayList_id_of_no_series ts h.2⟩

end

theorem sweep_entry_id_of_no_series (t : HType) (h : containsSeries t = false) :
    sweep_entry t = some t := by
  cases t with
  | series d n l m a => simp [containsSeries] at h
  | boundFunction key this =>
    simp only [containsSeries] at h
    have hs : isSeriesTy this = false := by
      cases this <;> first
        | rfl
        | simp [containsSeries] at h
    simp [sweep_entry, hs]
  | scalar d => rfl
  | array d n l m a => rfl
  | boxedSeries d => rfl
  | unboxedSeries d => rfl
  | stringArray => rfl
  | timestamp => rfl
  | sliceTy => rfl
  | tupleTy ts => rfl
  | otherTy nm => rfl

theorem sweep_typemap_id_of_no_series (tm : TypeMapE)
    (h : ∀ p ∈ tm, containsSeries p.2 = false) : sweep_typemap tm = some tm := by
  induction tm with
  | nil => rfl
  | cons q tm ih =>
    simp only [sweep_typemap]
    rw [sweep_entry_id_of_no_series q.2 (h q (by simp)),
      ih (fun p hp => h p (by simp [hp]))]

mutual

theorem fix_typ_undefs_self : ∀ t : HType, fix_typ_undefs t t = some t
  | .array d n l m a => by
    by_cases h : d = .undefinedDt <;> simp [fix_typ_undefs, fixArrSeries, h]
  | .series d n l m a => by
    by_cases h : d = .undefinedDt <;> simp [fix_typ_undefs, fixArrSeries, h]
  | .tupleTy ts => by
    show (fixList ts ts).map HType.tupleTy = some (.tupleTy ts)
    rw [fixList_self ts]
    rfl
  | .scalar d => rfl
  | .boxedSeries d => rfl
  | .unboxedSeries d => rfl
  | .stringArray => rfl
  | .timestamp => rfl
  | .sliceTy => rfl
  | .boundFunction key this => rfl
  | .otherTy nm => rfl

theorem fixList_self : ∀ ts : HTList, fixList ts ts = some ts
  | .nil => rfl
  | .cons t ts => by
    simp only [fixList, fix_typ_undefs_self t, fixList_self ts]

end

theorem recompute_sig_self (sig : SigE) : recompute_sig sig sig = some sig := by
  have hargs : (sig.args.zip sig.args).mapM (fun p => fix_typ_undefs p.1 p.2)
      = some sig.args := by
    induction sig.args with
    | nil => rfl
    | cons t ts ih =>
      simp only [List.zip_cons_cons, List.mapM_cons, fix_typ_undefs_self t, ih]
      rfl
  simp only [recompute_sig, fix_typ_undefs_self sig.ret, hargs]

/-- The statements the dispatch of `_run_assign` rewrites for reasons
    independent of series types: string-column comparisons, df-column
    boolean filters, and the recognized calls (`pd.DatetimeIndex`,
    the hiframes_api catalog, `np.empty_like`). -/
def recognized_physical (tm : TypeMapE) (df_cols : List String) : StmtE → Bool
  | .assignE lhs rhs =>
    match rhs with
    | .binopE fn l r =>
      (match fn with
       | .cmpF _ => true
       | .otherF _ => false)
      && (is_str_arr_typ (typeofV tm l) || is_str_arr_typ (typeofV tm r))
    | .getitemE v idx =>
      decide (v ∈ df_cols ∧ lhs ∈ df_cols ∧ is_bool_arr (typeofV tm idx) = true)
    | .callE (some (name, mod)) args =>
      decide (name = "DatetimeIndex" ∧ mod = "pandas")
      || (decide (mod = "hpat.hiframes_api")
          && (decide (name = "to_series_type" ∨ name = "to_arr_from_series"
              ∨ name = "str_contains_regex" ∨ name = "str_contains_noregex"
              ∨ name = "fix_rolling_array" ∨ name = "count" ∨ name = "fillna"
              ∨ name = "column_sum" ∨ name = "mean" ∨ name = "var")
            || decide (name = "fix_df_array"
                ∧ isArrayOrStrArr (typeofV tm (args.getD 0 "")) = true)))
      || decide (name = "empty_like" ∧ mod = "numpy")
    | _ => false
  | .nonAssignE => false

theorem containsSeries_false_not_series (t : HType) (h : containsSeries t = false) :
    isSeriesTy t = false := by
  cases t <;> first
    | rfl
    | simp [containsSeries] at h

theorem containsSeries_false_not_dt (t : HType) (h : containsSeries t = false) :
    t ≠ dt_index_series_type := by
  intro he
  subst he
  simp [containsSeries, dt_index_series_type] at h

theorem typeof_no_series (tm : TypeMapE) (hser : ∀ p ∈ tm, containsSeries p.2 = false)
    (v : String) : containsSeries (typeofV tm v) = false := by
  unfold typeofV
  cases hf : tm.find? (fun p => p.1 == v) with
  | none => rfl
  | some p => exact hser p (List.mem_of_find?_eq_some hf)

theorem run_call_hiframes_unchanged (tm : TypeMapE) (args : List String) (name : String)
    (hcat : ¬(name = "to_series_type" ∨ name = "to_arr_from_series"
      ∨ name = "str_contains_regex" ∨ name = "str_contains_noregex"
      ∨ name = "fix_rolling_array" ∨ name = "count" ∨ name = "fillna"
      ∨ name = "column_sum" ∨ name = "mean" ∨ name = "var"))
    (hfix : ¬(name = "fix_df_array"
      ∧ isArrayOrStrArr (typeofV tm (args.getD 0 "")) = true)) :
    run_call_hiframes tm args name = .unchanged := by
  push_neg at hcat
  obtain ⟨h1, h2, h3, h4, h5, h6, h7, h8, h9, h10⟩ := hcat
  unfold run_call_hiframes
  rw [if_neg (show ¬(name = "to_series_type" ∨ name = "to_arr_from_series") from
      fun h => h.elim h1 h2),
    if_neg (show ¬(name = "str_contains_regex" ∨ name = "str_contains_noregex") from
      fun h => h.elim h3 h4),
    if_neg hfix, if_neg h5,
    if_neg (show ¬(name = "count" ∨ name = "fillna" ∨ name = "column_sum"
        ∨ name = "mean" ∨ name = "var") from
      fun h => h.elim h6 (fun h => h.elim h7 (fun h => h.elim h8 (fun h => h.elim h9 h10))))]

/-- C6 counterexample: a graph whose type map holds only physical float
    arrays still has its `empty_like` call statement rewritten by the pass,
    so rewriting an already-fully-physical graph is not a no-op. -/
theorem physical_noop_counterexample :
    run_assign
        [("A", HType.array .float64 1 .C true true),
          ("B", HType.array .float64 1 .C true true)] []
        (.assignE "B" (.callE (some ("empty_like", "numpy")) ["A"]))
      = .rewritten
    ∧ containsSeries (HType.array .float64 1 .C true true) = false
    ∧ StepRes.rewritten ≠ .unchanged := by decide

/-- C6 (amended): on a graph whose type map references no series type
    anywhere, a statement matching none of the series-independent rewrite
    patterns (string-column comparison, df-column boolean filter,
    recognized `pd.DatetimeIndex` / hiframes_api / `np.empty_like` call) is
    left unchanged by the dispatch; the series-replacement sweep leaves
    such a type map unchanged; the signature mapping leaves a series-free
    signature unchanged; and re-deriving a call signature that equals the
    recorded one reconciles to the recorded signature. -/
theorem physical_noop_spec (tm : TypeMapE) (df_cols : List String) (s : StmtE)
    (sig : SigE) :
    ((∀ p ∈ tm, containsSeries p.2 = false) →
      recognized_physical tm df_cols s = false →
      run_assign tm df_cols s = .unchanged)
    ∧ ((∀ p ∈ tm, containsSeries p.2 = false) → sweep_typemap tm = some tm)
    ∧ (containsSeries sig.ret = false → (∀ t ∈ sig.args, containsSeries t = false) →
      sweep_sig sig = sig)
    ∧ recompute_sig sig sig = some sig := by
  refine ⟨?_, sweep_typemap_id_of_no_series tm, ?_, recompute_sig_self sig⟩
  · intro hser hrec
    cases s with
    | nonAssignE => rfl
    | assignE lhs rhs =>
      cases rhs with
      | getattrE v attr =>
        have hsv := containsSeries_false_not_series _ (typeof_no_series tm hser v)
        simp [run_assign, hsv]
      | binopE fn l r =>
        have hdl := containsSeries_false_not_dt _ (typeof_no_series tm hser l)
        have hdr := containsSeries_false_not_dt _ (typeof_no_series tm hser r)
        cases fn with
        | otherF op =>
          simp [run_assign, handle_string_array_expr, is_dt_index_binop]
        | cmpF c =>
          simp only [recognized_physical, Bool.true_and] at hrec
          simp only [run_assign, handle_string_array_expr, hrec,
            Bool.false_eq_true, if_false]
          rw [show is_dt_index_binop (.cmpF c) (typeofV tm l) (typeofV tm r)
              = false by simp [is_dt_index_binop, hdl, hdr]]
          simp
      | getitemE v idx =>
        have hdv := containsSeries_false_not_dt _ (typeof_no_series tm hser v)
        simp only [recognized_physical, decide_eq_false_iff_not] at hrec
        simp [run_assign, hrec, hdv]
      | staticGetitemE v =>
        have hdv := containsSeries_false_not_dt _ (typeof_no_series tm hser v)
        simp [run_assign, hdv]
      | callE fdef args =>
        cases fdef with
        | none => rfl
        | some nm =>
          obtain ⟨name, mod⟩ := nm
          simp only [recognized_physical] at hrec
          obtain ⟨hab, hc⟩ := Bool.or_eq_false_iff.mp hrec
          obtain ⟨ha, hb⟩ := Bool.or_eq_false_iff.mp hab
          have hdt := of_decide_eq_false ha
          have hel := of_decide_eq_false hc
          simp only [run_assign, if_neg hdt]
          by_cases hm : mod = "hpat.hiframes_api"
          · rw [if_pos hm]
            rcases Bool.and_eq_false_iff.mp hb with hmf | hcats
            · exact absurd hm (of_decide_eq_false hmf)
            · obtain ⟨hcat, hfix⟩ := Bool.or_eq_false_iff.mp hcats
              exact run_call_hiframes_unchanged tm args name
                (of_decide_eq_false hcat) (of_decide_eq_false hfix)
          · rw [if_neg hm, if_neg hel]
      | otherE => rfl
  · intro h1 h2
    unfold sweep_sig
    rw [if_series_to_array_id_of_no_series sig.ret h1]
    rw [show sig.args.map (fun a => if_series_to_array_type a false) = sig.args from
      List.map_congr_left (fun a ha => if_series_to_array_id_of_no_series a (h2 a ha))
        |>.trans (List.map_id sig.args)]

/-- Witness for `physical_noop_spec` at a physical type map with an
    unrecognized arithmetic binop statement. -/
theorem physical_noop_spec_witness :
    run_assign [("A", HType.array .float64 1 .C true true)] []
        (.assignE "B" (.binopE (.otherF "+") "A" "A"))
      = .unchanged
    ∧ sweep_typemap [("A", HType.array .float64 1 .C true true)]
      = some [("A", HType.array .float64 1 .C true true)]
    ∧ sweep_sig ⟨.scalar .float64, [.array .float64 1 .C true true]⟩
      = ⟨.scalar .float64, [.array .float64 1 .C true true]⟩ := by
  refine ⟨?_, ?_, ?_⟩
  · exact (physical_noop_spec [("A", HType.array .float64 1 .C true true)] []
      (.assignE "B" (.binopE (.otherF "+") "A" "A")) ⟨.scalar .int64, []⟩).1
      (by decide) (by decide)
  · exact (physical_noop_spec [("A", HType.array .float64 1 .C true true)] []
      .nonAssignE ⟨.scalar .int64, []⟩).2.1 (by decide)
  · exact (physical_noop_spec [] []
      .nonAssignE ⟨.scalar .float64, [.array .float64 1 .C true true]⟩).2.2.1
      (by decide) (by decide)

/-! Series-preserving operation typing (pd_series_ext.py): the shared
    `series_op_generic` helper behind the array operator, in-place
    operator, unary operator and numpy ufunc typing classes, and the
    `GetItemSeries` typing template. The underlying numba array typing
    (`super().generic` and `get_array_index_type`) is external and is
    passed as a function parameter. -/

/-- A physical buffer type: a numpy array or the string array. -/
def isArrayLike : HType → Bool
  | .array _ _ _ _ _ => true
  | .stringArray => true
  | _ => false

/-- Scalar integer types (`types.Integer`). -/
def isIntegerTy : HType → Bool
  | .scalar .int64 => true
  | .scalar .intpD => true
  | .scalar .uint8 => true
  | _ => false

mutual

/-- Well-formedness of a type as numba builds it: every array and series is
    one-dimensional (the `SeriesType` constructor asserts this), tuples
    recursively. -/
def wfArg : HType → Bool
  | .series _ n _ _ _ => n == 1
  | .array _ n _ _ _ => n == 1
  | .tupleTy ts => wfArgList ts
  | _ => true

/-- List version of `wfArg`. -/
def wfArgList : HTList → Bool
  | .nil => true
  | .cons t ts => wfArg t && wfArgList ts

end

/-- Embedding of `series_op_generic` (pd_series_ext.py): return no
    signature when no argument is a series; otherwise convert the argument
    types to physical arrays, run the underlying array typing `base`
    (numba, external), and re-present the resulting return and argument
    types as series; the outer `none` models a fault while re-wrapping. -/
def series_op_generic (base : List HType → Option SigE) (args : List HType) :
    Option (Option SigE) :=
  if args.all (fun a => !isSeriesTy a) then some none
  else
    match base (args.map (fun a => if_series_to_array_type a false)) with
    | none => some none
    | some sig =>
      match if_arr_to_series_type sig.ret, sig.args.mapM if_arr_to_series_type with
      | some r, some as2 => some (some ⟨r, as2⟩)
      | _, _ => none

/-- Embedding of `GetItemStringArray.generic` (str_arr_ext.py): getitem on
    the string array type with a slice, integer, boolean-mask or index
    array, returning the corresponding result type over the given
    argument types. -/
def getitem_string_array_sig (ary idx : HType) : Option SigE :=
  if ary = .stringArray then
    if idx = .sliceTy then some ⟨.stringArray, [ary, idx]⟩
    else if isIntegerTy idx then some ⟨string_type, [ary, idx]⟩
    else if idx = .array .boolean 1 .C true true then some ⟨.stringArray, [ary, idx]⟩
    else if idx = .array .intpD 1 .C true true then some ⟨.stringArray, [ary, idx]⟩
    else none
  else none

/-- Dtype test backing the `is_arr_dt_index` flag of `GetItemSeries`. -/
def arrDtypeIsDt64 : HType → Bool
  | .array .dt64ns _ _ _ _ => true
  | _ => false

/-- Embedding of `GetItemSeries.generic` (pd_series_ext.py): return no
    signature when neither operand is a series; otherwise convert series
    operands to arrays, type the getitem on the physical types (through
    `GetItemStringArray` for the string array, else through the external
    `get_array_index_type`, modelled by `gait`; its `None` result faults),
    then re-present the container argument and result (and a series index)
    as series, and turn a datetime64 scalar result of a datetime-index
    container into the timestamp type. -/
def getitem_series_generic (gait : HType → HType → Option (HType × HType))
    (in_arr0 in_idx0 : HType) : Option (Option SigE) :=
  if ¬ (isSeriesTy in_arr0 = true ∨ isSeriesTy in_idx0 = true) then some none
  else
    let is_arr_series := isSeriesTy in_arr0
    let in_arr := if is_arr_series then series_to_array_type in_arr0 false else in_arr0
    let is_arr_dt_index := is_arr_series && arrDtypeIsDt64 in_arr
    let is_idx_series := isSeriesTy in_idx0
    let in_idx := if is_idx_series then series_to_array_type in_idx0 false else in_idx0
    let sigOrCrash : Option (Option SigE) :=
      if in_arr = .stringArray then some (getitem_string_array_sig in_arr in_idx)
      else
        match gait in_arr in_idx with
        | none => none
        | some ri => some (some ⟨ri.1, [in_arr, ri.2]⟩)
    match sigOrCrash with
    | none => none
    | some none => some none
    | some (some sig) =>
      let arg1 := sig.args.getD 0 (.otherTy "none")
      let arg2 := sig.args.getD 1 (.otherTy "none")
      let step1 : Option (HType × HType) :=
        if is_arr_series then
          match if_arr_to_series_type sig.ret, if_arr_to_series_type arg1 with
          | some r, some a1 => some (r, a1)
          | _, _ => none
        else some (sig.ret, arg1)
      match step1 with
      | none => none
      | some ra =>
        let step2 : Option HType :=
          if is_idx_series then if_arr_to_series_type arg2 else some arg2
        match step2 with
        | none => none
        | some a2 =>
          let r2 := if is_arr_dt_index && (ra.1 == HType.scalar .dt64ns)
            then HType.timestamp else ra.1
          some (some ⟨r2, [ra.2, a2]⟩)

example :
    getitem_series_generic (fun _ _ => none) string_series_type
        (.array .boolean 1 .C true true)
      = some (some ⟨string_series_type,
          [string_series_type, .array .boolean 1 .C true true]⟩) := rfl

example :
    getitem_series_generic (fun _ _ => some (.scalar .dt64ns, .scalar .intpD))
        dt_index_series_type (.scalar .intpD)
      = some (some ⟨.timestamp, [dt_index_series_type, .scalar .intpD]⟩) := rfl

mutual

theorem toArr_wf : ∀ t : HType, wfArg t = true →
    wfArg (if_series_to_array_type t false) = true
  | .series d n l m a => by
    intro h
    by_cases hd : d = .stringD <;>
      simp_all [if_series_to_array_type, series_to_array_type, wfArg]
  | .boxedSeries d => by intro h; exact h
  | .tupleTy ts => by
    intro h
    simp only [wfArg] at h
    simpa [if_series_to_array_type, wfArg] using toArrList_wf ts h
  | .scalar d => by intro h; exact h
  | .array d n l m a => by intro h; exact h
  | .unboxedSeries d => by intro h; exact h
  | .stringArray => by intro h; exact h
  | .timestamp => by intro h; exact h
  | .sliceTy => by intro h; exact h
  | .boundFunction key this => by intro h; exact h
  | .otherTy nm => by intro h; exact h

theorem toArrList_wf : ∀ ts : HTList, wfArgList ts = true →
    wfArgList (seriesToArrayList ts false) = true
  | .nil => by intro h; exact h
  | .cons t ts => by
    intro h
    simp only [wfArgList, Bool.and_eq_true] at h
    simp only [seriesToArrayList, wfArgList, Bool.and_eq_true]
    exact ⟨toArr_wf t h.1, toArrList_wf ts h.2⟩

end

mutual

theorem if_arr_to_series_total : ∀ t : HType, wfArg t = true →
    ∃ u, if_arr_to_series_type t = some u
      ∧ (isArrayLike t = true → isSeriesTy u = true)
  | .array d n l m a => by
    intro h
    simp only [wfArg, beq_iff_eq] at h
    subst h
    exact ⟨.series d 1 l m a, by simp [if_arr_to_series_type, arr_to_series_type],
      fun _ => rfl⟩
  | .stringArray => by
    intro h
    exact ⟨string_series_type, rfl, fun _ => rfl⟩
  | .tupleTy ts => by
    intro h
    simp only [wfArg] at h
    obtain ⟨us, hus⟩ := arrToSeriesList_total ts h
    exact ⟨.tupleTy us, by simp [if_arr_to_series_type, hus], by intro hc; cases hc⟩
  | .scalar d => by intro h; exact ⟨.scalar d, rfl, by intro hc; cases hc⟩
  | .series d n l m a => by
    intro h
    exact ⟨.series d n l m a, rfl, by intro hc; cases hc⟩
  | .boxedSeries d => by intro h; exact ⟨.boxedSeries d, rfl, by intro hc; cases hc⟩
  | .unboxedSeries d => by intro h; exact ⟨.unboxedSeries d, rfl, by intro hc; cases hc⟩
  | .timestamp => by intro h; exact ⟨.timestamp, rfl, by intro hc; cases hc⟩
  | .sliceTy => by intro h; exact ⟨.sliceTy, rfl, by intro hc; cases hc⟩
  | .boundFunction key this => by
    intro h
    exact ⟨.boundFunction key this, rfl, by intro hc; cases hc⟩
  | .otherTy nm => by intro h; exact ⟨.otherTy nm, rfl, by intro hc; cases hc⟩

theorem arrToSeriesList_total : ∀ ts : HTList, wfArgList ts = true →
    ∃ us, arrToSeriesList ts = some us
  | .nil => by intro h; exact ⟨.nil, rfl⟩
  | .cons t ts => by
    intro h
    simp only [wfArgList, Bool.and_eq_true] at h
    obtain ⟨u, hu, _⟩ := if_arr_to_series_total t h.1
    obtain ⟨us, hus⟩ := arrToSeriesList_total ts h.2
    exact ⟨.cons u us, by simp [arrToSeriesList, hu, hus]⟩

end

theorem toArr_arrayLike_of_series (t : HType) (hs : isSeriesTy t = true) :
    isArrayLike (if_series_to_array_type t false) = true := by
  cases t with
  | series d n l m a =>
    by_cases hd : d = .stringD <;>
      simp [if_series_to_array_type, series_to_array_type, hd, isArrayLike]
  | scalar d => cases hs
  | array d n l m a => cases hs
  | boxedSeries d => cases hs
  | unboxedSeries d => cases hs
  | stringArray => cases hs
  | timestamp => cases hs
  | sliceTy => cases hs
  | boundFunction key this => cases hs
  | tupleTy ts => cases hs
  | otherTy nm => cases hs

theorem mapM_arr_to_series (args : List HType) (h : ∀ a ∈ args, wfArg a = true) :
    ∃ us, (args.map (fun a => if_series_to_array_type a false)).mapM
        if_arr_to_series_type = some us
      ∧ List.Forall₂ (fun a b => isSeriesTy a = true → isSeriesTy b = true) args us := by
  induction args with
  | nil => exact ⟨[], rfl, List.Forall₂.nil⟩
  | cons a args ih =>
    have hwa : wfArg (if_series_to_array_type a false) = true :=
      toArr_wf a (h a (by simp))
    obtain ⟨u, hu, hser⟩ := if_arr_to_series_total _ hwa
    obtain ⟨us, hus, hfa⟩ := ih (fun x hx => h x (by simp [hx]))
    refine ⟨u :: us, ?_, List.Forall₂.cons ?_ hfa⟩
    · rw [List.map_cons, List.mapM_cons, hu, hus]
      rfl
    · intro hsa
      exact hser (toArr_arrayLike_of_series a hsa)

theorem series_beq_scalar_dt64_false (r : HType) (h : isSeriesTy r = true) :
    (r == HType.scalar .dt64ns) = false := by
  cases r <;> first
    | rfl
    | cases h

/-- C10: series-ness is preserved by ordinary operation typing. For the
    shared `series_op_generic` helper used by every installed array
    operator, in-place operator, unary operator and numpy ufunc typing
    class: with no series-typed argument no series signature is produced;
    with a series-typed argument present, typing is performed on the
    corresponding physical array types (the external numba array typing is
    the parameter `base`, which for these operator rules echoes its
    argument types), and the resulting signature has every series-positioned
    argument type and any buffer-typed return re-presented as series types.
    For `GetItemSeries`: with no series operand no signature is produced;
    on a series container (typed through the external
    `get_array_index_type`, parameter `gait`, for non-string containers),
    the container argument of the final signature is a series and a
    buffer-typed underlying result is re-presented as a series; the string
    series container with a boolean mask gets the string-series container
    and result signature. -/
theorem series_op_typing_spec (base : List HType → Option SigE)
    (gait : HType → HType → Option (HType × HType)) (args : List HType) (sig0 : SigE)
    (arr idx res ind : HType) :
    (args.all (fun a => !isSeriesTy a) = true → series_op_generic base args = some none)
    ∧ ((∃ a ∈ args, isSeriesTy a = true) →
      (∀ a ∈ args, wfArg a = true) →
      base (args.map (fun a => if_series_to_array_type a false)) = some sig0 →
      sig0.args = args.map (fun a => if_series_to_array_type a false) →
      wfArg sig0.ret = true →
      ∃ sig2, series_op_generic base args = some (some sig2)
        ∧ List.Forall₂ (fun a b => isSeriesTy a = true → isSeriesTy b = true)
            args sig2.args
        ∧ (isArrayLike sig0.ret = true → isSeriesTy sig2.ret = true))
    ∧ (isSeriesTy arr = false → isSeriesTy idx = false →
      getitem_series_generic gait arr idx = some none)
    ∧ (isSeriesTy arr = true → isSeriesTy idx = false → wfArg arr = true →
      series_to_array_type arr false ≠ .stringArray →
      gait (series_to_array_type arr false) idx = some (res, ind) →
      wfArg res = true →
      ∃ sig2, getitem_series_generic gait arr idx = some (some sig2)
        ∧ isSeriesTy (sig2.args.getD 0 (.otherTy "none")) = true
        ∧ (isArrayLike res = true → isSeriesTy sig2.ret = true))
    ∧ (getitem_series_generic gait string_series_type (.array .boolean 1 .C true true)
        = some (some ⟨string_series_type,
            [string_series_type, .array .boolean 1 .C true true]⟩)) := by
  refine ⟨?_, ?_, ?_, ?_, rfl⟩
  · intro hall
    simp [series_op_generic, hall]
  · intro hex hwf hbase hargs hwret
    have hnall : ¬ (args.all (fun a => !isSeriesTy a) = true) := by
      simp only [List.all_eq_true]
      push_neg
      obtain ⟨a, ha, hs⟩ := hex
      exact ⟨a, ha, by simp [hs]⟩
    obtain ⟨r, hr, hrs⟩ := if_arr_to_series_total sig0.ret hwret
    obtain ⟨us, hus, hfa⟩ := mapM_arr_to_series args hwf
    refine ⟨⟨r, us⟩, ?_, hfa, hrs⟩
    unfold series_op_generic
    rw [if_neg hnall, hbase]
    show (match if_arr_to_series_type sig0.ret,
        sig0.args.mapM if_arr_to_series_type with
      | some r2, some as2 => some (some (SigE.mk r2 as2))
      | _, _ => (none : Option (Option SigE))) = some (some (SigE.mk r us))
    rw [hr, hargs, hus]
  · intro hsa hsi
    simp [getitem_series_generic, hsa, hsi]
  · intro hsa hsi hw hnstr hg hwres
    cases arr with
    | series d n l m a =>
      have hn : n = 1 := by simpa [wfArg] using hw
      subst hn
      by_cases hd : d = .stringD
      · subst hd
        exact absurd (by simp [series_to_array_type]) hnstr
      · have hconv : series_to_array_type (.series d 1 l m a) false
            = .array d 1 l m a := by simp [series_to_array_type, hd]
        rw [hconv] at hg
        obtain ⟨r, hr, hrs⟩ := if_arr_to_series_total res hwres
        refine ⟨⟨if (arrDtypeIsDt64 (.array d 1 l m a))
              && (r == HType.scalar .dt64ns) then .timestamp else r,
            [.series d 1 l m a, ind]⟩, ?_, rfl, ?_⟩
        · unfold getitem_series_generic
          rw [if_neg (not_not_intro (Or.inl hsa))]
          have harr1 : if_arr_to_series_type (.array d 1 l m a)
              = some (.series d 1 l m a) := by
            simp [if_arr_to_series_type, arr_to_series_type]
          simp [hsa, hsi, hconv, hg, hr, harr1]
        · intro hal
          have hrser := hrs hal
          rw [series_beq_scalar_dt64_false r hrser]
          simpa using hrser
    | scalar d => cases hsa
    | array d n l m a => cases hsa
    | boxedSeries d => cases hsa
    | unboxedSeries d => cases hsa
    | stringArray => cases hsa
    | timestamp => cases hsa
    | sliceTy => cases hsa
    | boundFunction key this => cases hsa
    | tupleTy ts => cases hsa
    | otherTy nm => cases hsa

/-- Witness for `series_op_typing_spec`: a comparison-style operator typing
    over a float series and a float scalar, and a getitem on a float series
    with an integer index, both through concrete external typing
    functions. -/
theorem series_op_typing_spec_witness :
    (∃ sig2, series_op_generic
        (fun ts => some ⟨.array .boolean 1 .C true true, ts⟩)
        [.series .float64 1 .C true true, .scalar .float64] = some (some sig2)
      ∧ List.Forall₂ (fun a b => isSeriesTy a = true → isSeriesTy b = true)
          [.series .float64 1 .C true true, .scalar .float64] sig2.args
      ∧ (isArrayLike (HType.array .boolean 1 .C true true) = true →
          isSeriesTy sig2.ret = true))
    ∧ (∃ sig2, getitem_series_generic (fun _ i => some (.scalar .float64, i))
        (.series .float64 1 .C true true) (.scalar .intpD) = some (some sig2)
      ∧ isSeriesTy (sig2.args.getD 0 (.otherTy "none")) = true
      ∧ (isArrayLike (HType.scalar .float64) = true → isSeriesTy sig2.ret = true)) := by
  constructor
  · exact (series_op_typing_spec
      (fun ts => some ⟨.array .boolean 1 .C true true, ts⟩)
      (fun _ i => some (.scalar .float64, i))
      [.series .float64 1 .C true true, .scalar .float64]
      ⟨.array .boolean 1 .C true true,
        [.array .float64 1 .C true true, .scalar .float64]⟩
      (.otherTy "x") (.otherTy "x") (.otherTy "x") (.otherTy "x")).2.1
      (by decide) (by decide) rfl rfl (by decide)
  · exact (series_op_typing_spec
      (fun ts => some ⟨.array .boolean 1 .C true true, ts⟩)
      (fun _ i => some (.scalar .float64, i))
      [] ⟨.otherTy "x", []⟩
      (.series .float64 1 .C true true) (.scalar .intpD)
      (.scalar .float64) (.scalar .intpD)).2.2.2.1
      rfl rfl (by decide) (by decide) rfl (by decide)
